import Mathlib

/-!
Verification development for the OpsClad timesheet extraction pipeline.

This file gives a shallow embedding, in Lean 4, of the extraction core of the
repository (scripts/excelextract.py, scripts/pdfextract.py,
scripts/pngextract.py and the reconciliation functions of
scripts/process_timesheets.py), and proves or refutes the frozen claims about
it.

Modelling conventions:
  - Python strings are List Char; only ASCII case mapping and ASCII whitespace
    are modelled (all data handled by the pipeline is ASCII).
  - Python float values arising from decimal literals are modelled as Rat.
    Every numeric string the code passes to float() is a plain decimal, so
    rational semantics agree with IEEE semantics for the properties proved
    here (zero tests, equality with small decimals).
  - datetime.date is modelled by PyDate with the CPython validity range
    (year 1..9999); date + timedelta(days=i) is the partial function addDays?,
    which is none exactly when CPython raises OverflowError.
  - The regular expressions of the source are hand-compiled into recursive
    descent matchers over List Char.  For every pattern used by a theorem the
    determinization (maximal munch for a character class followed by a
    disjoint class) coincides with CPython's leftmost-greedy backtracking
    semantics; this is noted at each matcher.
  - Functions that CPython lets raise are embedded with Option: none is an
    escaped exception.  try/except blocks of the source are embedded by
    matching on the Option at the same granularity.
-/

set_option maxRecDepth 4000

namespace TS

/-- String literal to List Char. -/
def strL (s : String) : List Char := s.data

/-- ASCII lower-casing of one char, models str.lower() on ASCII data. -/
def lowChar (c : Char) : Char :=
  if 'A' ≤ c ∧ c ≤ 'Z' then Char.ofNat (c.toNat + 32) else c

/-- ASCII upper-casing of one char, models str.upper() on ASCII data. -/
def upChar (c : Char) : Char :=
  if 'a' ≤ c ∧ c ≤ 'z' then Char.ofNat (c.toNat - 32) else c

/-- Python str.lower() (ASCII). -/
def pyLower (l : List Char) : List Char := l.map lowChar

/-- Python str.upper() (ASCII). -/
def pyUpper (l : List Char) : List Char := l.map upChar

/-- The characters Python's str.strip() and the regex class \s treat as
whitespace (ASCII part). -/
def isSpaceC (c : Char) : Bool :=
  c = ' ' ∨ c = '\t' ∨ c = '\n' ∨ c = '\r' ∨ c = '\x0b' ∨ c = '\x0c'

/-- Python str.strip(): drop whitespace from both ends. -/
def pyStrip (l : List Char) : List Char :=
  ((l.dropWhile isSpaceC).reverse.dropWhile isSpaceC).reverse

/-- Boolean prefix test on char lists. -/
def isPref : List Char → List Char → Bool
  | [], _ => true
  | _ :: _, [] => false
  | p :: ps, c :: cs => p = c && isPref ps cs

/-- Python substring containment: p occurs contiguously in l
(models the operator in of str). -/
def containsSub (p : List Char) : List Char → Bool
  | [] => isPref p []
  | c :: t => isPref p (c :: t) || containsSub p t

/-- Case-insensitive prefix test (ASCII). -/
def isPrefCI : List Char → List Char → Bool
  | [], _ => true
  | _ :: _, [] => false
  | p :: ps, c :: cs => lowChar p = lowChar c && isPrefCI ps cs

/-- Index of the first occurrence of a char, models str.find (none = -1). -/
def idxOf (c : Char) : List Char → Option Nat
  | [] => none
  | c' :: t => if c' = c then some 0 else (idxOf c t).map (· + 1)

/-- Digit test restricted to ASCII 0-9 (what the regex class \d matches for
ASCII input). -/
def isDigitC (c : Char) : Bool := '0' ≤ c ∧ c ≤ '9'

/-- Character class [\d.] of the source patterns. -/
def isDigitDot (c : Char) : Bool := isDigitC c || c = '.'

/-- Word character for the regex \b boundary: [A-Za-z0-9_]. -/
def isWordC (c : Char) : Bool :=
  isDigitC c ∨ ('a' ≤ c ∧ c ≤ 'z') ∨ ('A' ≤ c ∧ c ≤ 'Z') ∨ c = '_'

/-- Numeric value of an ASCII digit. -/
def toDig (c : Char) : Nat := c.toNat - 48

/-- ASCII digit char of a value < 10. -/
def digitChar (n : Nat) : Char := Char.ofNat (48 + n)

/-- Value of a digit string read in base 10. -/
def digitsVal (l : List Char) : Nat := l.foldl (fun a c => a * 10 + toDig c) 0

/-- Python float() on the strings this pipeline feeds it: optional surrounding
whitespace, optional sign, then digits with at most one dot and at least one
digit (inf/nan/exponent forms never occur in this pipeline and are not
modelled).  none models an escaped ValueError. -/
def pyFloat (s : List Char) : Option Rat :=
  let t := pyStrip s
  let (sgn, t) : Int × List Char :=
    match t with
    | '-' :: r => (-1, r)
    | '+' :: r => (1, r)
    | r => (1, r)
  let (intPart, t) := t.span isDigitC
  match t with
  | [] =>
    if intPart = [] then none
    else some (mkRat (sgn * (digitsVal intPart : Int)) 1)
  | '.' :: r =>
    let (fracPart, t2) := r.span isDigitC
    if t2 = [] then
      if intPart = [] ∧ fracPart = [] then none
      else
        some (mkRat (sgn * ((digitsVal intPart * 10 ^ fracPart.length +
          digitsVal fracPart : Nat) : Int)) (10 ^ fracPart.length))
    else none
  | _ => none

/-! ## Calendar model (CPython datetime.date) -/

/-- A calendar date as CPython's datetime.date triple. -/
structure PyDate where
  y : Nat
  m : Nat
  d : Nat
deriving DecidableEq, Repr

/-- Gregorian leap year test. -/
def isLeapYear (y : Nat) : Bool := y % 4 = 0 ∧ (y % 100 ≠ 0 ∨ y % 400 = 0)

/-- Number of days in a month. -/
def daysInMonth (y m : Nat) : Nat :=
  if m = 2 then (if isLeapYear y then 29 else 28)
  else if m = 4 ∨ m = 6 ∨ m = 9 ∨ m = 11 then 30
  else 31

/-- Validity as enforced by the datetime.date constructor
(MINYEAR = 1, MAXYEAR = 9999). -/
def validDate (dt : PyDate) : Bool :=
  1 ≤ dt.y ∧ dt.y ≤ 9999 ∧ 1 ≤ dt.m ∧ dt.m ≤ 12 ∧
  1 ≤ dt.d ∧ dt.d ≤ daysInMonth dt.y dt.m

/-- Mathematical successor day (unbounded year). -/
def nextDayU (dt : PyDate) : PyDate :=
  if dt.d < daysInMonth dt.y dt.m then ⟨dt.y, dt.m, dt.d + 1⟩
  else if dt.m < 12 then ⟨dt.y, dt.m + 1, 1⟩
  else ⟨dt.y + 1, 1, 1⟩

/-- Successor day inside the CPython range; none models the OverflowError of
date + timedelta stepping past 9999-12-31. -/
def nextDay? (dt : PyDate) : Option PyDate :=
  if dt.y = 9999 ∧ dt.m = 12 ∧ dt.d = 31 then none else some (nextDayU dt)

/-- date + timedelta(days = n), unbounded. -/
def addDaysU (dt : PyDate) : Nat → PyDate
  | 0 => dt
  | n + 1 => nextDayU (addDaysU dt n)

/-- date + timedelta(days = n); none models OverflowError. -/
def addDays? (dt : PyDate) : Nat → Option PyDate
  | 0 => some dt
  | n + 1 => (addDays? dt n).bind nextDay?

/-- Two zero-padded decimal digits (strftime %m / %d for values < 100). -/
def pad2 (n : Nat) : List Char := [digitChar (n / 10 % 10), digitChar (n % 10)]

/-- Four zero-padded decimal digits (strftime %Y for values < 10000). -/
def pad4 (n : Nat) : List Char :=
  [digitChar (n / 1000 % 10), digitChar (n / 100 % 10),
   digitChar (n / 10 % 10), digitChar (n % 10)]

/-- strftime('%m/%d/%Y'), the canonical date rendering of the pipeline. -/
def renderMDY (dt : PyDate) : List Char :=
  pad2 dt.m ++ '/' :: pad2 dt.d ++ '/' :: pad4 dt.y

/-- Exact inverse of renderMDY on 10-character strings (no validity check). -/
def unrenderMDY (s : List Char) : Option PyDate :=
  match s with
  | [m1, m0, a, d1, d0, b, y3, y2, y1, y0] =>
    if a = '/' ∧ b = '/' ∧ isDigitC m1 ∧ isDigitC m0 ∧ isDigitC d1 ∧
       isDigitC d0 ∧ isDigitC y3 ∧ isDigitC y2 ∧ isDigitC y1 ∧ isDigitC y0 then
      some ⟨toDig y3 * 1000 + toDig y2 * 100 + toDig y1 * 10 + toDig y0,
            toDig m1 * 10 + toDig m0, toDig d1 * 10 + toDig d0⟩
    else none
  | _ => none

/-- s is a canonical date string: exactly MM/DD/YYYY for a valid calendar
date. -/
def isCanonMDY (s : List Char) : Bool :=
  match unrenderMDY s with
  | some d => validDate d
  | none => false

/-- Days since 1970-01-01 (Howard Hinnant's days_from_civil); used only to
compute the weekday. -/
def daysFromCivil (dt : PyDate) : Int :=
  let y : Int := (dt.y : Int) - (if dt.m ≤ 2 then 1 else 0)
  let m : Int := dt.m
  let d : Int := dt.d
  let era : Int := (if 0 ≤ y then y else y - 399) / 400
  let yoe : Int := y - era * 400
  let doy : Int := (153 * (m + (if 2 < m then -3 else 9)) + 2) / 5 + d - 1
  let doe : Int := yoe * 365 + yoe / 4 - yoe / 100 + doy
  era * 146097 + doe - 719468

/-- Weekday index with Monday = 0 (datetime.date.weekday()). -/
def weekdayIdx (dt : PyDate) : Nat := ((daysFromCivil dt + 3) % 7).toNat

/-- strftime('%a').upper(): three-letter uppercase weekday code. -/
def weekday3 (dt : PyDate) : List Char :=
  (([strL "MON", strL "TUE", strL "WED", strL "THU", strL "FRI",
     strL "SAT", strL "SUN"]).getD (weekdayIdx dt) (strL "???"))

/-- datetime.strptime(s, '%m/%d/%Y'): 1-2 digit month in 1..12, '/',
1-2 digit day, '/', exactly 4 digit year; whole string consumed; then the
datetime constructor's calendar validation.  none models ValueError. -/
def strptimeMDY (s : List Char) : Option PyDate :=
  let (ms, r) := s.span isDigitC
  if ms = [] ∨ 2 < ms.length then none else
  match r with
  | '/' :: r1 =>
    let (ds, r2) := r1.span isDigitC
    if ds = [] ∨ 2 < ds.length then none else
    match r2 with
    | '/' :: r3 =>
      let (ys, r4) := r3.span isDigitC
      if ys.length = 4 ∧ r4 = [] then
        let dt : PyDate := ⟨digitsVal ys, digitsVal ms, digitsVal ds⟩
        if validDate dt then some dt else none
      else none
    | _ => none
  | _ => none

/-- datetime.strptime(s, '%d-%m-%Y') with the same conventions. -/
def strptimeDMY (s : List Char) : Option PyDate :=
  let (ds, r) := s.span isDigitC
  if ds = [] ∨ 2 < ds.length then none else
  match r with
  | '-' :: r1 =>
    let (ms, r2) := r1.span isDigitC
    if ms = [] ∨ 2 < ms.length then none else
    match r2 with
    | '-' :: r3 =>
      let (ys, r4) := r3.span isDigitC
      if ys.length = 4 ∧ r4 = [] then
        let dt : PyDate := ⟨digitsVal ys, digitsVal ms, digitsVal ds⟩
        if validDate dt then some dt else none
      else none
    | _ => none
  | _ => none

/-! ## Tabular extractor (scripts/excelextract.py) -/

/-- A pandas DataFrame cell as this pipeline can observe it: missing (NaN/NaT),
a string, a datetime/Timestamp, or a number. -/
inductive Cell where
  | na : Cell
  | str : List Char → Cell
  | dt : PyDate → Cell
  | num : Rat → Cell
deriving DecidableEq, Repr

/-- pd.isna. -/
def cellIsNA : Cell → Bool
  | .na => true
  | _ => false

/-- Best-effort decimal repr of a Rat, used only to model str() on numeric
cells (never reached by a theorem of this file). -/
def reprRat (q : Rat) : List Char :=
  let sgn : List Char := if q < 0 then ['-'] else []
  let n := q.num.natAbs
  if q.den = 1 then sgn ++ (Nat.toDigits 10 n) ++ strL ".0"
  else sgn ++ (Nat.toDigits 10 n) ++ '/' :: (Nat.toDigits 10 q.den)

/-- str(Timestamp): ISO date plus midnight time. -/
def reprTimestamp (d : PyDate) : List Char :=
  pad4 d.y ++ '-' :: pad2 d.m ++ '-' :: pad2 d.d ++ strL " 00:00:00"

/-- Python str() applied to a cell.  str(NaN) is the literal nan. -/
def pyStr : Cell → List Char
  | .na => strL "nan"
  | .str s => s
  | .dt d => reprTimestamp d
  | .num q => reprRat q

/-- Python cell == 0 (the summary-row guard of the source): true only for the
number zero; a string cell like the text 0 compares unequal to int 0. -/
def cellEqZero : Cell → Bool
  | .num q => q = 0
  | _ => false

/-- Python float() applied to a cell; none models an escaped
ValueError/TypeError (caught per-row by the source). -/
def pyFloatCell : Cell → Option Rat
  | .num q => some q
  | .str s => pyFloat s
  | _ => none

/-- Interface model of pandas.to_datetime on strings: accepts ISO
YYYY-MM-DD and M/D/YYYY shapes (the shapes this repository's data uses) and
fails on anything else.  Real pandas accepts more shapes; every concrete
string used by a theorem below is parsed identically by both. -/
def parseISO (s : List Char) : Option PyDate :=
  let (a, r) := s.span isDigitC
  if a.length = 4 then
    match r with
    | '-' :: r1 =>
      let (b, r2) := r1.span isDigitC
      if b = [] ∨ 2 < b.length then none else
      match r2 with
      | '-' :: r3 =>
        let (c, r4) := r3.span isDigitC
        if c ≠ [] ∧ c.length ≤ 2 ∧ r4 = [] then
          let dt : PyDate := ⟨digitsVal a, digitsVal b, digitsVal c⟩
          if validDate dt then some dt else none
        else none
      | _ => none
    | _ => none
  else none

/-- Dispatch of the pandas.to_datetime string model on the first separator
after the leading digits. -/
def pdToDatetimeStr (s : List Char) : Option PyDate :=
  let t := pyStrip s
  match (t.span isDigitC).2 with
  | '-' :: _ => parseISO t
  | '/' :: _ => strptimeMDY t
  | _ => none

/-- Interface model of pandas.to_datetime on numbers: the value is an epoch
nanosecond count; out-of-bounds values raise.  Modelled as the epoch date for
in-range values (sub-day precision is irrelevant here; no theorem evaluates
this branch). -/
def pdToDatetimeNum (q : Rat) : Option PyDate :=
  if -9223372036854775808 ≤ q ∧ q ≤ 9223372036854775807 then
    some ⟨1970, 1, 1⟩
  else none

/-- format_date of excelextract.py: normalize a raw date cell to MM/DD/YYYY,
falling back to str(value) when parsing fails. -/
def format_date : Cell → List Char
  | .na => []
  | .dt d => renderMDY d
  | .str s =>
    match pdToDatetimeStr s with
    | some d => renderMDY d
    | none => s
  | .num q =>
    match pdToDatetimeNum q with
    | some d => renderMDY d
    | none => if q = 0 then [] else reprRat q

/-- get_day_from_date of excelextract.py: weekday code from the canonical
date string, Unknown when absent or unparseable. -/
def get_day_from_date (s : List Char) : List Char :=
  if s = [] then strL "Unknown"
  else
    match strptimeMDY s with
    | some d => weekday3 d
    | none => strL "Unknown"

/-- The ordered column alias table of excelextract.py. -/
def column_mapping : List (List Char × List (List Char)) :=
  [ (strL "date", [strL "date", strL "day_date", strL "work_date"]),
    (strL "day", [strL "day", strL "day_of_week", strL "weekday"]),
    (strL "client", [strL "client", strL "client_name", strL "company"]),
    (strL "project", [strL "project", strL "project_name"]),
    (strL "activity", [strL "activity", strL "activity_type", strL "work/pto",
      strL "type", strL "activity (work/pto)"]),
    (strL "hours", [strL "hours", strL "hours_worked", strL "time",
      strL "duration"]) ]

/-- Association-list lookup (Python dict access with string keys). -/
def alookup {β : Type} (k : List Char) : List (List Char × β) → Option β
  | [] => none
  | (k', v) :: t => if k = k' then some v else alookup k t

/-- Column resolution: for each standard name, the first alias present among
the normalized headers. -/
def resolveColumns (cols : List (List Char)) : List (List Char × List Char) :=
  column_mapping.filterMap (fun p =>
    (p.2.find? (fun v => cols.contains v)).map (fun v => (p.1, v)))

/-- Cell of a row under a (normalized) header name. -/
def getCell (cols : List (List Char)) (row : List Cell) (name : List Char) :
    Cell :=
  match cols.indexOf? name with
  | some i => row.getD i .na
  | none => .na

/-- Lines 107-114 of excelextract.py: the raw activity label (absent column
or NaN cell giving the WORK default) is upper-cased and stripped, then
normalized to PTO exactly when it contains the substring PTO. -/
def normalize_activity (raw : Option (List Char)) : List Char :=
  let activityStr :=
    match raw with
    | some s => pyStrip (pyUpper s)
    | none => strL "WORK"
  if containsSub (strL "PTO") activityStr then strL "PTO" else strL "WORK"

/-- One extracted tabular entry (the per-row dict of excelextract.py). -/
structure ExcelEntry where
  date : List Char
  day : List Char
  client : List Char
  project : List Char
  hours : Rat
  activity : List Char
deriving DecidableEq, Repr

/-- The action of the source on one data row: none means the row was skipped,
either by the guard (missing/zero/total) or by the per-row except handler
(float failure). -/
def processExcelRow (cols : List (List Char))
    (actual : List (List Char × List Char)) (row : List Cell) :
    Option ExcelEntry :=
  let date_value :=
    match alookup (strL "date") actual with
    | some v => getCell cols row v
    | none => .na
  let hours_value :=
    match alookup (strL "hours") actual with
    | some v => getCell cols row v
    | none => .na
  if cellIsNA date_value ∨ cellIsNA hours_value ∨
     pyLower (pyStr date_value) = strL "total" ∨ cellEqZero hours_value then
    none
  else
    let date_str := format_date date_value
    let day := get_day_from_date date_str
    let client :=
      match alookup (strL "client") actual with
      | some v =>
        let c := getCell cols row v
        if cellIsNA c then strL "Unknown Client" else pyStr c
      | none => strL "Unknown Client"
    let project :=
      match alookup (strL "project") actual with
      | some v =>
        let c := getCell cols row v
        if cellIsNA c then strL "Unknown Project" else pyStr c
      | none => strL "Unknown Project"
    let activity :=
      normalize_activity
        (match alookup (strL "activity") actual with
         | some v =>
           let c := getCell cols row v
           if cellIsNA c then none else some (pyStr c)
         | none => none)
    match pyFloatCell hours_value with
    | none => none
    | some hours =>
      some ⟨date_str, day, client, project, hours, activity⟩

/-- The row loop of extract_timesheet_data_from_excel: work entries, PTO
entries and the running total, in row order. -/
def processExcelRows (cols : List (List Char))
    (actual : List (List Char × List Char)) :
    List (List Cell) → List ExcelEntry × List ExcelEntry × Rat
  | [] => ([], [], 0)
  | r :: t =>
    match processExcelRow cols actual r with
    | none => processExcelRows cols actual t
    | some e =>
      let (w, p, th) := processExcelRows cols actual t
      if e.activity = strL "PTO" then (w, e :: p, e.hours + th)
      else (e :: w, p, e.hours + th)

/-- Result structure of the tabular extractor. -/
structure ExcelResults where
  work_entries : List ExcelEntry
  pto_entries : List ExcelEntry
  client_name : List Char
  total_hours : Rat
deriving DecidableEq, Repr

/-- extract_timesheet_data_from_excel: none models the null returns (empty
frame, missing required columns).  The headers come in as read; the function
normalizes them (strip + lower) exactly as the source does. -/
def extract_timesheet_data_from_excel (headers : List (List Char))
    (rows : List (List Cell)) : Option ExcelResults :=
  if rows.isEmpty then none
  else
    let cols := headers.map (fun h => pyLower (pyStrip h))
    let actual := resolveColumns cols
    if (alookup (strL "date") actual).isNone ∨
       (alookup (strL "hours") actual).isNone then none
    else
      let (work, pto, total) := processExcelRows cols actual rows
      let client_name :=
        match work with
        | e :: _ => e.client
        | [] =>
          match pto with
          | e :: _ => e.client
          | [] => strL "Unknown Client"
      some ⟨work, pto, client_name, total⟩

/-! ## Layout-pattern extractor (scripts/pdfextract.py)

The three regular expressions of extract_timesheet_entries are hand-compiled
into recursive-descent matchers.  In every one of them each quantified
character class is followed either by the end of the pattern or by a token a
member of the class can never start, so maximal munch coincides with
CPython's leftmost-greedy backtracking (the one exception, the zero-width
separators of the alternate pattern, is noted there). -/

/-- A pattern item: consumes a prefix of the text, returning the consumed
characters and the rest. -/
def Pc : Type := List Char → Option (List Char × List Char)

/-- Exactly n ASCII digits (\d{n}). -/
def takeDigits : Nat → List Char → Option (List Char × List Char)
  | 0, l => some ([], l)
  | n + 1, c :: t =>
    if isDigitC c then (takeDigits n t).map (fun p => (c :: p.1, p.2))
    else none
  | _ + 1, [] => none

/-- \d{n} as a pattern item. -/
def digitsP (n : Nat) : Pc := takeDigits n

/-- A single literal character. -/
def charP (c : Char) : Pc := fun l =>
  match l with
  | c' :: t => if c' = c then some ([c'], t) else none
  | [] => none

/-- A case-sensitive literal. -/
def litP (s : List Char) : Pc := fun l =>
  if isPref s l then some (s, l.drop s.length) else none

/-- A case-insensitive literal; the consumed source characters keep their
original case. -/
def ciToken : List Char → List Char → Option (List Char × List Char)
  | [], l => some ([], l)
  | p :: ps, c :: t =>
    if lowChar p = lowChar c then (ciToken ps t).map (fun q => (c :: q.1, q.2))
    else none
  | _ :: _, [] => none

/-- A case-insensitive literal as a pattern item. -/
def litCIP (s : List Char) : Pc := ciToken s

/-- Ordered alternation of case-insensitive literals.  All alternations of
this file have pairwise distinct first letters, so first-match equals
CPython's ordered alternation with backtracking. -/
def altCIP (ss : List (List Char)) : Pc := fun l =>
  ss.findSome? (fun s => ciToken s l)

/-- \s+ (at least one whitespace char). -/
def spaces1P : Pc := fun l =>
  let (sp, r) := l.span isSpaceC
  if sp = [] then none else some (sp, r)

/-- \s* (possibly empty). -/
def spaces0P : Pc := fun l => some (l.span isSpaceC)

/-- [\d.]+ (maximal, nonempty). -/
def numRun1P : Pc := fun l =>
  let (run, r) := l.span isDigitDot
  if run = [] then none else some (run, r)

/-- \d{1,2} followed in all uses by a colon, so maximal munch capped at two
digits is exact. -/
def digits1to2P : Pc := fun l =>
  let (ds, r) := l.span isDigitC
  if ds = [] ∨ 2 < ds.length then none else some (ds, r)

/-- \d+\.?\d* (maximal): digits, an optional dot, more digits.  In every use
the item is followed by whitespace or a non-digit skip, so maximal munch is
exact. -/
def numTokP : Pc := fun l =>
  let (ds, r) := l.span isDigitC
  if ds = [] then none else
  match r with
  | '.' :: r1 =>
    let (fs, r2) := r1.span isDigitC
    some (ds ++ '.' :: fs, r2)
  | _ => some (ds, r)

/-- The lazy skip [^\d]*? in front of a digit group: consume up to the first
digit, failing when no digit remains (exactly CPython's lazy expansion,
since the continuation starts with \d). -/
def skipToDigitP : Pc := fun l =>
  let (sk, r) := l.span (fun c => ¬ isDigitC c)
  match r with
  | [] => none
  | _ => some (sk, r)

/-- Run a sequence of pattern items, returning the per-item consumed chunks
(from which capture groups are reassembled) and the rest of the text. -/
def runSeq : List Pc → List Char → Option (List (List Char) × List Char)
  | [], l => some ([], l)
  | p :: ps, l =>
    match p l with
    | some (c, r) =>
      match runSeq ps r with
      | some (cs, r') => some (c :: cs, r')
      | none => none
    | none => none

/-- A composite item: a sequence whose consumed chunks are joined into one
capture. -/
def joinP (ps : List Pc) : Pc := fun l =>
  (runSeq ps l).map (fun q => (q.1.flatten, q.2))

/-- The weekday alternation (Mon|Tue|Wed|Thu|Fri|Sat|Sun), IGNORECASE. -/
def dayP : Pc :=
  altCIP [strL "Mon", strL "Tue", strL "Wed", strL "Thu", strL "Fri",
    strL "Sat", strL "Sun"]

/-- (\d{2}/\d{2}/\d{4}). -/
def dateP : Pc := joinP [digitsP 2, charP '/', digitsP 2, charP '/', digitsP 4]

/-- (\d{2}-\d{2}-\d{4}) of the grid extractor. -/
def dateDmyP : Pc :=
  joinP [digitsP 2, charP '-', digitsP 2, charP '-', digitsP 4]

/-- (\d{1,2}:\d{2}\s*(?:AM|PM)), IGNORECASE; the capture keeps internal
spacing. -/
def timeP : Pc :=
  joinP [digits1to2P, charP ':', digitsP 2, spaces0P,
    altCIP [strL "AM", strL "PM"]]

/-- Captured groups of the primary work pattern. -/
structure WorkGroups where
  date : List Char
  day : List Char
  start_time : List Char
  stop_time : List Char
  hours : List Char
deriving DecidableEq, Repr

/-- Item list of the primary work pattern of pdfextract.py:
(\d{2}/\d{2}/\d{4})\s+(day)\s+Work\s+(time)\s+(time)\s+ then five discarded
[\d.]+\s+ columns and the captured ([\d.]+), with IGNORECASE.  Every
quantified class is followed by a disjoint token, so maximal munch is
exact. -/
def workItems : List Pc :=
  [dateP, spaces1P, dayP, spaces1P, litCIP (strL "Work"), spaces1P,
   timeP, spaces1P, timeP, spaces1P,
   numRun1P, spaces1P, numRun1P, spaces1P, numRun1P, spaces1P,
   numRun1P, spaces1P, numRun1P, spaces1P, numRun1P]

/-- The primary work pattern anchored at the current position. -/
def matchWorkAt : List Char → Option (WorkGroups × List Char) := fun l =>
  (runSeq workItems l).map (fun q =>
    (⟨q.1.getD 0 [], q.1.getD 2 [], q.1.getD 6 [], q.1.getD 8 [],
      q.1.getD 20 []⟩, q.2))

/-- Captured groups of the alternate (fallback) work pattern. -/
structure AltGroups where
  paid : List Char
  day : List Char
  date : List Char
deriving DecidableEq, Repr

/-- Item list of the fallback work pattern of pdfextract.py:
([\d.]+)\s*[\d.]+\s*[\d.]+\s*(time)\s*(time)\s*Work\s*(day)\s*(date),
IGNORECASE.  The zero-width \s* separators are determinized by maximal munch
of the numeric runs; CPython could additionally split one whitespace-free
digit run across two adjacent [\d.]+ items by backtracking, a shape this
report layout never produces. -/
def altItems : List Pc :=
  [numRun1P, spaces0P, numRun1P, spaces0P, numRun1P, spaces0P,
   timeP, spaces0P, timeP, spaces0P, litCIP (strL "Work"), spaces0P,
   dayP, spaces0P, dateP]

/-- The fallback work pattern anchored at the current position. -/
def matchAltAt : List Char → Option (AltGroups × List Char) := fun l =>
  (runSeq altItems l).map (fun q =>
    (⟨q.1.getD 0 [], q.1.getD 12 [], q.1.getD 14 []⟩, q.2))

/-- Captured groups of the PTO pattern. -/
structure PtoGroups where
  day : List Char
  date : List Char
deriving DecidableEq, Repr

/-- Item list of the PTO pattern of pdfextract.py:
PTO\s*(day)\s*(\d{2}/\d{2}/\d{4}), IGNORECASE. -/
def ptoItems : List Pc :=
  [litCIP (strL "PTO"), spaces0P, dayP, spaces0P, dateP]

/-- The PTO pattern anchored at the current position. -/
def matchPtoAt : List Char → Option (PtoGroups × List Char) := fun l =>
  (runSeq ptoItems l).map (fun q => (⟨q.1.getD 2 [], q.1.getD 4 []⟩, q.2))

/-- re.finditer scan: try the matcher at every position, left to right; a
successful match is consumed (the scan resumes after it); a failed position
advances by one.  The skip counter makes the recursion structural. -/
def scanAux {α : Type} (m : List Char → Option (α × List Char)) :
    List Char → Nat → List α
  | [], _ => []
  | _ :: t, Nat.succ k => scanAux m t k
  | l@(_ :: t), 0 =>
    match m l with
    | some (g, rest) => g :: scanAux m t (l.length - rest.length - 1)
    | none => scanAux m t 0

/-- All matches of a pattern over a text (re.finditer / re.findall). -/
def findAll {α : Type} (m : List Char → Option (α × List Char))
    (l : List Char) : List α :=
  scanAux m l 0

/-- First match of a pattern (re.search). -/
def searchFirst {α : Type} (m : List Char → Option (α × List Char))
    (l : List Char) : Option α :=
  (findAll m l).head?

/-- One extracted document-text entry.  Primary work entries carry start/stop
times; fallback work entries do not; PTO entries carry no hours at the
extractor level. -/
structure PdfEntry where
  date : List Char
  day : List Char
  start_time : Option (List Char)
  stop_time : Option (List Char)
  hours : Option Rat
  activity : List Char
  client : Option (List Char)
deriving DecidableEq, Repr

/-- try strptime / strftime round trip of the source: normalize a matched
date string, keep it raw on ValueError. -/
def normDate (raw : List Char) : List Char :=
  match strptimeMDY raw with
  | some d => renderMDY d
  | none => raw

/-- Build a work entry from primary-pattern groups; none models the escaped
ValueError of float(hours). -/
def mkWorkEntry (client : Option (List Char)) (g : WorkGroups) :
    Option PdfEntry :=
  match pyFloat g.hours with
  | none => none
  | some h =>
    some ⟨normDate g.date, pyUpper g.day, some g.start_time, some g.stop_time,
      some h, strL "Work", client⟩

/-- Build a work entry from fallback-pattern groups; none models the escaped
ValueError of float(paid_hours). -/
def mkAltEntry (client : Option (List Char)) (g : AltGroups) :
    Option PdfEntry :=
  match pyFloat g.paid with
  | none => none
  | some h =>
    some ⟨normDate g.date, pyUpper g.day, none, none, some h, strL "Work",
      client⟩

/-- Build a PTO entry (no fallible operation). -/
def mkPtoEntry (client : Option (List Char)) (g : PtoGroups) : PdfEntry :=
  ⟨normDate g.date, pyUpper g.day, none, none, none, strL "PTO", client⟩

/-- Option-valued mapM whose none propagates the first embedded exception,
matching a Python for-loop that can raise. -/
def mapMO {α β : Type} (f : α → Option β) : List α → Option (List β)
  | [] => some []
  | a :: t =>
    match f a, mapMO f t with
    | some b, some bs => some (b :: bs)
    | _, _ => none

/-- Result of extract_timesheet_entries. -/
structure PdfExtractResult where
  work_entries : List PdfEntry
  pto_entries : List PdfEntry
deriving DecidableEq, Repr

/-- Python truthiness of the optional client name: None and the empty string
are falsy. -/
def truthyClient (c : Option (List Char)) : Option (List Char) :=
  match c with
  | some s => if s = [] then none else some s
  | none => none

/-- extract_timesheet_entries of pdfextract.py.  The primary pattern is
scanned first; the fallback pattern runs only when the primary produced no
entries; the PTO pattern runs unconditionally.  none models an escaped
ValueError from float() on a captured group. -/
def extract_timesheet_entries (text : List Char)
    (client_name : Option (List Char)) : Option PdfExtractResult :=
  let cl := truthyClient client_name
  match mapMO (mkWorkEntry cl) (findAll matchWorkAt text) with
  | none => none
  | some work0 =>
    let work? :=
      if work0.isEmpty then mapMO (mkAltEntry cl) (findAll matchAltAt text)
      else some work0
    match work? with
    | none => none
    | some work =>
      some ⟨work, (findAll matchPtoAt text).map (mkPtoEntry cl)⟩

/-! ## Layout-grid extractor (scripts/pngextract.py) -/

/-- The seven captured daily columns of a Leave/Day-Total row. -/
structure Cols7 where
  c0 : List Char
  c1 : List Char
  c2 : List Char
  c3 : List Char
  c4 : List Char
  c5 : List Char
  c6 : List Char
deriving DecidableEq, Repr

/-- The chunk list of a matched row pattern restricted to the seven capture
positions. -/
def cols7Of (cs : List (List Char)) (base step : Nat) : Cols7 :=
  ⟨cs.getD base [], cs.getD (base + step) [], cs.getD (base + 2 * step) [],
   cs.getD (base + 3 * step) [], cs.getD (base + 4 * step) [],
   cs.getD (base + 5 * step) [], cs.getD (base + 6 * step) []⟩

/-- float() of a \d+\.?\d* capture: always succeeds; total by construction. -/
def ratOfNumTok (s : List Char) : Rat :=
  let (ds, r) := s.span isDigitC
  match r with
  | '.' :: fs =>
    mkRat ((digitsVal ds * 10 ^ fs.length + digitsVal fs : Nat) : Int)
      (10 ^ fs.length)
  | _ => mkRat (digitsVal ds : Int) 1

/-- The 7 column values of a matched row, as floats. -/
def cols7Vals (c : Cols7) : List Rat :=
  [ratOfNumTok c.c0, ratOfNumTok c.c1, ratOfNumTok c.c2, ratOfNumTok c.c3,
   ratOfNumTok c.c4, ratOfNumTok c.c5, ratOfNumTok c.c6]

/-- Date-range pattern 1:
From\s+(\d{2}-\d{2}-\d{4})\s+To\s+(\d{2}-\d{2}-\d{4}) (case-sensitive). -/
def fromItems1 : List Pc :=
  [litP (strL "From"), spaces1P, dateDmyP, spaces1P, litP (strL "To"),
   spaces1P, dateDmyP]

/-- Date-range pattern 2: (\d{2}-\d{2}-\d{4})\s+To\s+(\d{2}-\d{2}-\d{4}). -/
def fromItems2 : List Pc :=
  [dateDmyP, spaces1P, litP (strL "To"), spaces1P, dateDmyP]

/-- Date-range pattern 3:
From\s*(\d{2}-\d{2}-\d{4})\s*To\s*(\d{2}-\d{2}-\d{4}). -/
def fromItems3 : List Pc :=
  [litP (strL "From"), spaces0P, dateDmyP, spaces0P, litP (strL "To"),
   spaces0P, dateDmyP]

/-- The first capture group of a date-range pattern. -/
def matchFromAt (items : List Pc) (g1 : Nat) :
    List Char → Option (List Char × List Char) := fun l =>
  (runSeq items l).map (fun q => (q.1.getD g1 [], q.2))

/-- The start-date search loop of extract_timesheet_from_ocr_text: the
ordered date patterns are tried with re.search; a parse failure of the first
group falls through to the next pattern. -/
def findStartDate (text : List Char) : Option PyDate :=
  let try1 := (searchFirst (matchFromAt fromItems1 2) text).bind strptimeDMY
  match try1 with
  | some d => some d
  | none =>
    let try2 := (searchFirst (matchFromAt fromItems2 0) text).bind strptimeDMY
    match try2 with
    | some d => some d
    | none => (searchFirst (matchFromAt fromItems3 2) text).bind strptimeDMY

/-- The Leave/PTO row pattern:
(?:Leave|PTO)\s+ then seven (\d+\.?\d*) groups separated by \s+,
IGNORECASE. -/
def leaveItems : List Pc :=
  [altCIP [strL "Leave", strL "PTO"], spaces1P,
   numTokP, spaces1P, numTokP, spaces1P, numTokP, spaces1P, numTokP,
   spaces1P, numTokP, spaces1P, numTokP, spaces1P, numTokP]

/-- The Leave row anchored at the current position. -/
def matchLeaveAt : List Char → Option (Cols7 × List Char) := fun l =>
  (runSeq leaveItems l).map (fun q => (cols7Of q.1 2 2, q.2))

/-- Day-Total pattern with the (hrs) label:
Day\s+Total\s*\(hrs\) then seven [^\d]*?(\d+\.?\d*) groups, IGNORECASE. -/
def dayTotalItemsA : List Pc :=
  [litCIP (strL "Day"), spaces1P, litCIP (strL "Total"), spaces0P,
   litCIP (strL "(hrs)"),
   skipToDigitP, numTokP, skipToDigitP, numTokP, skipToDigitP, numTokP,
   skipToDigitP, numTokP, skipToDigitP, numTokP, skipToDigitP, numTokP,
   skipToDigitP, numTokP]

/-- Day-Total pattern without the label: Day\s+Total then seven
[^\d]*?(\d+\.?\d*) groups, IGNORECASE. -/
def dayTotalItemsB : List Pc :=
  [litCIP (strL "Day"), spaces1P, litCIP (strL "Total"),
   skipToDigitP, numTokP, skipToDigitP, numTokP, skipToDigitP, numTokP,
   skipToDigitP, numTokP, skipToDigitP, numTokP, skipToDigitP, numTokP,
   skipToDigitP, numTokP]

/-- Day-Total pattern A anchored at the current position. -/
def matchDayTotalAAt : List Char → Option (Cols7 × List Char) := fun l =>
  (runSeq dayTotalItemsA l).map (fun q => (cols7Of q.1 6 2, q.2))

/-- Day-Total pattern B anchored at the current position. -/
def matchDayTotalBAt : List Char → Option (Cols7 × List Char) := fun l =>
  (runSeq dayTotalItemsB l).map (fun q => (cols7Of q.1 4 2, q.2))

/-- One grid entry (work or PTO) of pngextract.py. -/
structure GridEntry where
  date : List Char
  day : List Char
  hours : Rat
  activity : List Char
deriving DecidableEq, Repr

/-- days_of_week of the source. -/
def daysOfWeek : List (List Char) :=
  [strL "MON", strL "TUE", strL "WED", strL "THU", strL "FRI", strL "SAT",
   strL "SUN"]

/-- The PTO loop of the source over the seven Leave columns: non-zero columns
become PTO entries for start_date + i days, deduplicated by date string;
none models the OverflowError of date arithmetic escaping the loop.  The
second component is the final pto_dates set (as a list). -/
def ptoLoop (sd : PyDate) :
    List Rat → Nat → List (List Char) →
    Option (List GridEntry × List (List Char))
  | [], _, seen => some ([], seen)
  | h :: t, i, seen =>
    if 0 < h then
      match addDays? sd i with
      | none => none
      | some cd =>
        let ds := renderMDY cd
        if ds ∈ seen then ptoLoop sd t (i + 1) seen
        else
          (ptoLoop sd t (i + 1) (seen ++ [ds])).map (fun q =>
            (⟨ds, daysOfWeek.getD i (strL "???"), h, strL "PTO"⟩ :: q.1, q.2))
    else ptoLoop sd t (i + 1) seen

/-- The Day-Total loop of the source: for each of the seven columns the date
is computed first (the overflow point), then a work entry is emitted when the
date is not a PTO date and the hours are positive.  Returns the Daily Hours
pairs and Work Entries accumulated before a possible overflow, plus whether
the loop completed. -/
def workLoop (sd : PyDate) (ptoDates : List (List Char)) :
    List Rat → Nat → List (List Char × Rat) × List GridEntry × Bool
  | [], _ => ([], [], true)
  | h :: t, i =>
    match addDays? sd i with
    | none => ([], [], false)
    | some cd =>
      let ds := renderMDY cd
      let (dh, ws, ok) := workLoop sd ptoDates t (i + 1)
      if ds ∉ ptoDates ∧ 0 < h then
        let key := daysOfWeek.getD i (strL "???") ++ ' ' :: ds
        ((key, h) :: dh, ⟨ds, daysOfWeek.getD i (strL "???"), h,
          strL "Work"⟩ :: ws, ok)
      else (dh, ws, ok)

/-- The fallback loop over up to seven \b(\d+\.00|\d+\.\d+)\b tokens of a
grid line: the date is computed first (overflow point); entries require a
non-PTO date and positive hours. -/
def fallbackLoop (sd : PyDate) (ptoDates : List (List Char)) :
    List (List Char) → Nat → List (List Char × Rat) × List GridEntry × Bool
  | [], _ => ([], [], true)
  | s :: t, i =>
    match addDays? sd i with
    | none => ([], [], false)
    | some cd =>
      let ds := renderMDY cd
      let (dh, ws, ok) := fallbackLoop sd ptoDates t (i + 1)
      if ds ∉ ptoDates then
        let h := ratOfNumTok s
        if 0 < h then
          let key := daysOfWeek.getD i (strL "???") ++ ' ' :: ds
          ((key, h) :: dh, ⟨ds, daysOfWeek.getD i (strL "???"), h,
            strL "Work"⟩ :: ws, ok)
        else (dh, ws, ok)
      else (dh, ws, ok)

/-- One match of the fallback hour-token pattern \b(\d+\.00|\d+\.\d+)\b at
the current position (leading boundary already checked by the scanner):
both alternatives require the full leading digit run (a shorter run would
leave a digit where '.' is required), and the trailing \b requires the next
char to be a non-word character. -/
def hourTokenAt (l : List Char) : Option (List Char × List Char) :=
  let (ds, r) := l.span isDigitC
  if ds = [] then none else
  match r with
  | '.' :: r1 =>
    let (fs, r2) := r1.span isDigitC
    let boundary : Bool :=
      match r2 with
      | [] => true
      | c :: _ => ¬ isWordC c
    -- alternative 1: \d+\.00 with a boundary right after the second 0;
    -- alternative 2: \d+\.\d+ (maximal)
    if isPref (strL "00") fs ∧ fs.length = 2 ∧ boundary then
      some (ds ++ '.' :: fs, r2)
    else if fs ≠ [] ∧ boundary then some (ds ++ '.' :: fs, r2)
    else none
  | _ => none

/-- re.findall of the fallback hour-token pattern over one line, tracking the
previous character for the leading \b boundary.  The skip counter consumes
the remainder of a match, as in scanAux. -/
def findHourAux : Option Char → List Char → Nat → List (List Char)
  | _, [], _ => []
  | _, c :: t, Nat.succ k => findHourAux (some c) t k
  | prev, c :: t, 0 =>
    let boundaryOk : Bool :=
      match prev with
      | some p => ¬ isWordC p
      | none => true
    if boundaryOk then
      match hourTokenAt (c :: t) with
      | some (tok, _) => tok :: findHourAux (some c) t (tok.length - 1)
      | none => findHourAux (some c) t 0
    else findHourAux (some c) t 0

/-- All hour tokens of a line. -/
def findHourTokens (l : List Char) : List (List Char) := findHourAux none l 0

/-- The days header test of the fallback:
re.search(MON.*TUE.*WED.*THU.*FRI.*SAT.*SUN, line, IGNORECASE).  A match
exists iff the seven names occur in order; the earliest-occurrence chain is
complete iff any chain is. -/
def findCIFrom (pat : List Char) : List Char → Option (List Char)
  | [] => if pat = [] then some [] else none
  | c :: t =>
    if isPrefCI pat (c :: t) then some ((c :: t).drop pat.length)
    else findCIFrom pat t

/-- Chained in-order case-insensitive occurrence of several literals. -/
def seqContainsCI : List (List Char) → List Char → Bool
  | [], _ => true
  | p :: ps, l =>
    match findCIFrom p l with
    | some r => seqContainsCI ps r
    | none => false

/-- Is this line the weekday header line of the grid? -/
def isDaysHeader (line : List Char) : Bool :=
  seqContainsCI daysOfWeek line

/-- Index of the first days-header line. -/
def findDaysLineIdx (lines : List (List Char)) : Option Nat :=
  (lines.findIdx? isDaysHeader)

/-- The fallback line scan: for offsets 1..9 below the header, the first line
with at least five hour tokens; mirrors the for/if/break of the source. -/
def findHourLine (lines : List (List Char)) (idx : Nat) :
    Option (List (List Char)) :=
  (List.range' 1 9).findSome? (fun off =>
    if idx + off < lines.length then
      let toks := findHourTokens (lines.getD (idx + off) [])
      if 5 ≤ toks.length then some toks else none
    else none)

/-- Result of extract_timesheet_from_ocr_text (the fields the pipeline
reads). -/
structure GridResults where
  selectProject : List Char
  dailyHours : List (List Char × Rat)
  workEntries : List GridEntry
  totalHours : Option Rat
  ptoData : Option (List GridEntry)
  startDate : Option PyDate
deriving DecidableEq, Repr

/-- The work-hours stage of extract_timesheet_from_ocr_text: the two
Day-Total patterns are tried in order (a pattern that matches while
start_date is missing does not break, as in the source); if neither produced
entries, the header-relative fallback scan runs.  The Bool is false when a
date overflow escaped (the surrounding except). -/
def workStage (text : List Char) (sd? : Option PyDate)
    (ptoDates : List (List Char)) :
    List (List Char × Rat) × List GridEntry × Bool :=
  let tryPat := fun (m : List Char → Option (Cols7 × List Char)) =>
    match searchFirst m text, sd? with
    | some cols, some sd => some (workLoop sd ptoDates (cols7Vals cols) 0)
    | _, _ => none
  match tryPat matchDayTotalAAt with
  | some r => r
  | none =>
    match tryPat matchDayTotalBAt with
    | some r => r
    | none =>
      -- fallback scan
      let lines := text.splitOn '\n' |>.map id
      match findDaysLineIdx lines, sd? with
      | some idx, some sd =>
        match findHourLine lines idx with
        | some toks => fallbackLoop sd ptoDates (toks.take 7) 0
        | none => ([], [], true)
      | some _, none =>
        -- a header line with hour tokens sets hours_extracted without
        -- producing entries when no start date exists
        ([], [], true)
      | none, _ => ([], [], true)

/-- extract_timesheet_from_ocr_text of pngextract.py.  The project name is
the constant known template name (the default when no project pattern
matches is the same constant).  An OverflowError of date arithmetic is
caught by the surrounding except, freezing the results accumulated so far
(in particular PTO Data stays None when the PTO loop raises, and Total Hours
stays None whenever any loop raises). -/
def extract_timesheet_from_ocr_text (text : List Char) : GridResults :=
  let sd? := findStartDate text
  let proj := strL "Seymour Whyte Connect"
  let base : GridResults := ⟨proj, [], [], none, none, sd?⟩
  let pto? :=
    match searchFirst matchLeaveAt text, sd? with
    | some cols, some sd => ptoLoop sd (cols7Vals cols) 0 []
    | _, _ => some ([], [])
  match pto? with
  | none => base
  | some (ptoEntries, ptoDates) =>
    let r1 := { base with ptoData := some ptoEntries }
    match workStage text sd? ptoDates with
    | (dh, ws, false) => { r1 with dailyHours := dh, workEntries := ws }
    | (dh, ws, true) =>
      let totalWork := (dh.map (fun p => p.2)).foldr (· + ·) 0
      let totalPto := (ptoEntries.map (fun e => e.hours)).foldr (· + ·) 0
      { r1 with
        dailyHours := dh
        workEntries := ws
        totalHours := some (totalWork + totalPto) }

/-! ## Reconciliation and per-document processing
(scripts/process_timesheets.py) -/

/-- A project entry of the identity mapping: the dict under one client key
(only its project display name is read by the core). -/
structure ProjEntry where
  project : Option (List Char)
deriving DecidableEq, Repr

/-- One employee record of the identity mapping.  name/employee_id/emp id
are Options: none is an absent key (dict.get default applies). -/
structure EmpInfo where
  name : Option (List Char)
  employee_id : Option (List Char)
  emp_id_csv : Option (List Char)
  projects : List (List Char × ProjEntry)
deriving DecidableEq, Repr

/-- clean_email of process_timesheets.py: take the angle-bracketed part when
both brackets occur (an inverted pair yields the empty slice, as in Python),
then strip and lower-case. -/
def clean_email (s : List Char) : List Char :=
  match idxOf '<' s, idxOf '>' s with
  | some a, some b => pyLower (pyStrip ((s.take b).drop (a + 1)))
  | _, _ => pyLower (pyStrip s)

/-- sender_email.split('@')[0]: the part before the first '@' (the whole
string when none). -/
def localPart (s : List Char) : List Char := s.takeWhile (fun c => c ≠ '@')

/-- get_employee_name of process_timesheets.py.  An empty mapping falls back
to the raw sender's local part; a non-empty mapping missing the normalized
key falls back to the full normalized address. -/
def get_employee_name (sender : List Char)
    (mapping : List (List Char × EmpInfo)) : List Char :=
  if mapping.isEmpty then localPart sender
  else
    let cleanSender := clean_email sender
    match alookup cleanSender mapping with
    | some info =>
      match info.name with
      | some n => n
      | none => cleanSender
    | none => cleanSender

/-- Python truthiness of an optional string (None and the empty string are
falsy). -/
def truthyStr (o : Option (List Char)) : Bool :=
  match o with
  | some s => ¬ s.isEmpty
  | none => false

/-- get_employee_id of process_timesheets.py: employee_id or the legacy
emp id key (Python or-chaining on falsy values), else the normalized
address; an empty mapping falls back to the raw sender's local part. -/
def get_employee_id (sender : List Char)
    (mapping : List (List Char × EmpInfo)) : List Char :=
  if mapping.isEmpty then localPart sender
  else
    let cleanSender := clean_email sender
    let info := (alookup cleanSender mapping).getD ⟨none, none, none, []⟩
    let eid := if truthyStr info.employee_id then info.employee_id
      else info.emp_id_csv
    if truthyStr eid then eid.getD [] else cleanSender

/-- A value stored in the project field of an output record: the source
stores either a string or, through get_employee_project, the raw project
dict of the mapping. -/
inductive ProjOut where
  | str : List Char → ProjOut
  | pdict : ProjEntry → ProjOut
deriving DecidableEq, Repr

/-- Python str.replace(old, new) with new = the empty string: delete every
occurrence of old.  The skip counter consumes the remainder of a deleted
occurrence, keeping the recursion structural. -/
def removeAllAux (pat : List Char) : List Char → Nat → List Char
  | [], _ => []
  | _ :: t, Nat.succ k => removeAllAux pat t k
  | c :: t, 0 =>
    if pat ≠ [] ∧ isPref pat (c :: t) then removeAllAux pat t (pat.length - 1)
    else c :: removeAllAux pat t 0

/-- Python str.replace(old, the empty string). -/
def removeAll (pat l : List Char) : List Char := removeAllAux pat l 0

/-- get_employee_project of process_timesheets.py. -/
def get_employee_project (sender : List Char) (client_name : List Char)
    (mapping : List (List Char × EmpInfo)) : ProjOut :=
  if mapping.isEmpty ∨ client_name.isEmpty then .str (strL "Unknown Project")
  else
    let info := (alookup (clean_email sender) mapping).getD ⟨none, none, none, []⟩
    let key := pyStrip (removeAll (strL " technology consulting llc")
      (pyLower client_name))
    match alookup key info.projects with
    | some pe => .pdict pe
    | none => .str (strL "Unknown Project")

/-- Python str.title(), modelled for ASCII: the first letter of each
letter-run upper-cased, the rest lower-cased. -/
def pyTitleAux : Bool → List Char → List Char
  | _, [] => []
  | prevAlpha, c :: t =>
    let isAlpha : Bool := ('a' ≤ c ∧ c ≤ 'z') ∨ ('A' ≤ c ∧ c ≤ 'Z')
    let c' := if isAlpha then (if prevAlpha then lowChar c else upChar c) else c
    c' :: pyTitleAux isAlpha t

/-- Python str.title() (ASCII). -/
def pyTitle (l : List Char) : List Char := pyTitleAux false l

/-- get_client_from_project of process_timesheets.py: first client key, in
mapping order, whose project display name matches the incoming project name
up to strip/lower, title-cased; else the sentinel. -/
def get_client_from_project (project_name : List Char)
    (mapping : List (List Char × EmpInfo)) : List Char :=
  if mapping.isEmpty then strL "Unknown Client"
  else
    let norm := pyLower (pyStrip project_name)
    let found := mapping.findSome? (fun p =>
      p.2.projects.findSome? (fun q =>
        match q.2.project with
        | some mp =>
          if ¬ mp.isEmpty ∧ pyLower (pyStrip mp) = norm then some (pyTitle q.1)
          else none
        | none => none))
    found.getD (strL "Unknown Client")

/-- A finished output record (the dicts appended to extracted_data /
entries_for_db; the created_at timestamp is not modelled). -/
structure OutEntry where
  date : List Char
  day : List Char
  hours : Rat
  client : Option (List Char)
  project : ProjOut
  employee_name : List Char
  employee_id : List Char
  sender_email : List Char
  activity : List Char
deriving DecidableEq, Repr

/-- process_excel_timesheet of process_timesheets.py, from the point where
the collaborators have delivered: validation verdict, extractor output and
sender.  Returns (extracted_data, entries_for_db).  The PTO loop of the
source builds records but appends them to neither list (both append
statements are commented out). -/
def process_excel_timesheet (valid : Bool) (excel_results : Option ExcelResults)
    (sender : List Char) (mapping : List (List Char × EmpInfo)) :
    List OutEntry × List OutEntry :=
  if ¬ valid then ([], [])
  else
    match excel_results with
    | none => ([], [])
    | some xr =>
      let client_name := xr.client_name
      let employee_name := get_employee_name sender mapping
      let employee_id := get_employee_id sender mapping
      let _project_name := get_employee_project sender client_name mapping
      let se := clean_email sender
      let work := xr.work_entries.map (fun e =>
        ({ date := e.date, day := e.day, hours := e.hours,
           client := some e.client, project := .str e.project,
           employee_name := employee_name, employee_id := employee_id,
           sender_email := se, activity := strL "WORK" } : OutEntry))
      let _ptoBuilt := xr.pto_entries.map (fun e =>
        ({ date := e.date, day := e.day, hours := e.hours,
           client := some e.client, project := .str e.project,
           employee_name := employee_name, employee_id := employee_id,
           sender_email := se, activity := strL "PTO" } : OutEntry))
      (work, work)

/-- Work entry of a PDF extraction result as consumed by
process_pdf_timesheet (hours always present there). -/
structure PdfWorkIn where
  date : List Char
  day : List Char
  hours : Rat
  client : Option (List Char)
deriving DecidableEq, Repr

/-- PTO entry of a PDF extraction result as consumed by
process_pdf_timesheet (hours optional; .get defaults to 8.0). -/
structure PdfPtoIn where
  date : List Char
  day : List Char
  hours : Option Rat
  client : Option (List Char)
deriving DecidableEq, Repr

/-- The result dict of pdfextract.process_timesheet_pdf as read by the
orchestrator. -/
structure PdfResultsIn where
  employee_name : Option (List Char)
  employee_number : Option (List Char)
  client_name : Option (List Char)
  work_entries : List PdfWorkIn
  pto_entries : List PdfPtoIn
deriving DecidableEq, Repr

/-- process_pdf_timesheet of process_timesheets.py, from the PDF extraction
result on.  Returns (extracted_data, entries_for_db); PTO records are built
but appended to neither list. -/
def process_pdf_timesheet (pdf_results : Option PdfResultsIn)
    (sender : List Char) (mapping : List (List Char × EmpInfo)) :
    List OutEntry × List OutEntry :=
  match pdf_results with
  | none => ([], [])
  | some pr =>
    let client_name := pr.client_name
    let employee_name :=
      if truthyStr pr.employee_name then pr.employee_name.getD []
      else get_employee_name sender mapping
    let employee_id :=
      if truthyStr pr.employee_number then pr.employee_number.getD []
      else get_employee_id sender mapping
    let project_name := get_employee_project sender (client_name.getD []) mapping
    let se := clean_email sender
    let work := pr.work_entries.map (fun e =>
      ({ date := e.date, day := e.day, hours := e.hours,
         client := (match e.client with | some c => some c | none => client_name),
         project := project_name,
         employee_name := employee_name, employee_id := employee_id,
         sender_email := se, activity := strL "WORK" } : OutEntry))
    let _ptoBuilt := pr.pto_entries.map (fun e =>
      ({ date := e.date, day := e.day, hours := e.hours.getD 8,
         client := (match e.client with | some c => some c | none => client_name),
         project := project_name,
         employee_name := employee_name, employee_id := employee_id,
         sender_email := se, activity := strL "PTO" } : OutEntry))
    (work, work)

/-- day_date_key.split() of the image path: whitespace split discarding
empty fields. -/
def pySplitWs (l : List Char) : List (List Char) :=
  ((l.splitOnP isSpaceC).filter (fun w => ¬ w.isEmpty))

/-- process_image_timesheet of process_timesheets.py, from the OCR extraction
result on.  PTO records from PTO Data are built but appended to neither
list; only the Daily Hours items with positive hours become (WORK)
entries. -/
def process_image_timesheet (ocr_results : Option GridResults)
    (sender : List Char) (mapping : List (List Char × EmpInfo)) :
    List OutEntry × List OutEntry :=
  match ocr_results with
  | none => ([], [])
  | some tr =>
    let employee_name := get_employee_name sender mapping
    let employee_id := get_employee_id sender mapping
    let project_name := tr.selectProject
    let client_name := get_client_from_project project_name mapping
    let se := clean_email sender
    let _ptoBuilt := (tr.ptoData.getD []).map (fun e =>
      ({ date := e.date, day := e.day, hours := e.hours,
         client := some client_name, project := .str project_name,
         employee_name := employee_name, employee_id := employee_id,
         sender_email := se, activity := strL "PTO" } : OutEntry))
    let work := (tr.dailyHours.filter (fun p => 0 < p.2)).map (fun p =>
      let parts := pySplitWs p.1
      let day := parts.getD 0 (strL "Unknown")
      let date := parts.getD 1 []
      ({ date := date, day := day, hours := p.2,
         client := some client_name, project := .str project_name,
         employee_name := employee_name, employee_id := employee_id,
         sender_email := se, activity := strL "WORK" } : OutEntry))
    (work, work)

/-! ## Concrete documents used by the theorems -/

/-- A document-text line whose weekday label (Fri) contradicts its date
(01/15/2024 is a Monday). -/
def c2Text : List Char :=
  strL "01/15/2024 Fri Work 08:00 AM 05:00 PM 1.0 1.0 1.0 1.0 1.0 8.00"

/-- A document-text line whose date 99/99/2024 matches the date shape but is
not a calendar date. -/
def c3Text : List Char :=
  strL "99/99/2024 Mon Work 08:00 AM 05:00 PM 1 1 1 1 1 8.0"

/-- A document-text line whose final hours column is zero. -/
def c5Text : List Char :=
  strL "01/15/2024 Mon Work 08:00 AM 05:00 PM 1.0 1.0 1.0 1.0 1.0 0.00"

/-- The spec's end-to-end example 3: a line only the fallback pattern
matches. -/
def c7Text : List Char :=
  strL "8.00 0.00 0.00 08:00 AM 05:00 PM Work Mon 01/15/2024"

/-- The spec's end-to-end example 2: date range anchor plus a Day-Total
row. -/
def c8Text : List Char :=
  strL "From 01-01-2024 To 07-01-2024\nDay Total (hrs) 0.00 8.00 8.00 8.00 8.00 0.00 0.00"

/-- A document-text line whose captured hours group 1.2.3 is not a float
literal. -/
def c9Text : List Char :=
  strL "01/15/2024 Mon Work 08:00 AM 05:00 PM 1 1 1 1 1 1.2.3"

/-- An OCR text whose Leave row has non-zero columns past the end of the
supported calendar (start 9999-12-28, columns 4..6 overflow). -/
def c10oText : List Char :=
  strL "From 28-12-9999 To 31-12-9999\nLeave 0.00 0.00 0.00 0.00 8.00 8.00 8.00"

/-- An OCR text with a start date and one non-zero Leave column. -/
def c10wText : List Char :=
  strL "From 01-01-2024 To 07-01-2024\nLeave 0.00 8.00 0.00 0.00 0.00 0.00 0.00"

/-! ## Helper lemmas -/

theorem mapMO_length {α β : Type} (f : α → Option β) :
    ∀ {l : List α} {r : List β}, mapMO f l = some r → r.length = l.length := by
  intro l
  induction l with
  | nil =>
    intro r h
    simp only [mapMO, Option.some.injEq] at h
    subst h
    rfl
  | cons a t ih =>
    intro r h
    simp only [mapMO] at h
    cases hf : f a with
    | none => rw [hf] at h; exact absurd h (by simp)
    | some b =>
      rw [hf] at h
      cases ht : mapMO f t with
      | none => rw [ht] at h; exact absurd h (by simp)
      | some bs =>
        rw [ht] at h
        simp only [Option.some.injEq] at h
        subst h
        simp [ih ht]

theorem mapMO_mem {α β : Type} (f : α → Option β) :
    ∀ {l : List α} {r : List β}, mapMO f l = some r →
      ∀ b ∈ r, ∃ a ∈ l, f a = some b := by
  intro l
  induction l with
  | nil =>
    intro r h b hb
    simp only [mapMO, Option.some.injEq] at h
    subst h
    simp at hb
  | cons a t ih =>
    intro r h b hb
    simp only [mapMO] at h
    cases hf : f a with
    | none => rw [hf] at h; exact absurd h (by simp)
    | some b0 =>
      rw [hf] at h
      cases ht : mapMO f t with
      | none => rw [ht] at h; exact absurd h (by simp)
      | some bs =>
        rw [ht] at h
        simp only [Option.some.injEq] at h
        subst h
        rcases List.mem_cons.mp hb with rfl | hmem
        · exact ⟨a, List.mem_cons_self a t, hf⟩
        · obtain ⟨a', ha', hfa'⟩ := ih ht b hmem
          exact ⟨a', List.mem_cons_of_mem a ha', hfa'⟩

theorem mapMO_isSome {α β : Type} (f : α → Option β) :
    ∀ {l : List α}, (∀ a ∈ l, (f a).isSome) → (mapMO f l).isSome := by
  intro l
  induction l with
  | nil => intro _; simp [mapMO]
  | cons a t ih =>
    intro h
    have ha := h a (List.mem_cons_self a t)
    have ht := ih (fun x hx => h x (List.mem_cons_of_mem a hx))
    simp only [mapMO]
    cases hfa : f a with
    | none => rw [hfa] at ha; simp at ha
    | some b =>
      cases hmt : mapMO f t with
      | none => rw [hmt] at ht; simp at ht
      | some bs => simp

theorem mapMO_map {α β γ : Type} (f : α → Option β) (g : β → γ) (h : α → γ)
    (hfg : ∀ a b, f a = some b → g b = h a) :
    ∀ {l : List α} {r : List β}, mapMO f l = some r → r.map g = l.map h := by
  intro l
  induction l with
  | nil =>
    intro r hr
    simp only [mapMO, Option.some.injEq] at hr
    subst hr
    rfl
  | cons a t ih =>
    intro r hr
    simp only [mapMO] at hr
    cases hf : f a with
    | none => rw [hf] at hr; exact absurd hr (by simp)
    | some b =>
      rw [hf] at hr
      cases ht : mapMO f t with
      | none => rw [ht] at hr; exact absurd hr (by simp)
      | some bs =>
        rw [ht] at hr
        simp only [Option.some.injEq] at hr
        subst hr
        simp [List.map_cons, hfg a b hf, ih ht]

theorem toDig_digitChar {n : Nat} (h : n < 10) : toDig (digitChar n) = n := by
  interval_cases n <;> decide

theorem isDigitC_digitChar {n : Nat} (h : n < 10) :
    isDigitC (digitChar n) = true := by
  interval_cases n <;> decide

theorem daysInMonth_le_31 (y m : Nat) : daysInMonth y m ≤ 31 := by
  unfold daysInMonth
  split
  · split <;> omega
  · split <;> omega

theorem one_le_daysInMonth (y m : Nat) : 1 ≤ daysInMonth y m := by
  unfold daysInMonth
  split
  · split <;> omega
  · split <;> omega

theorem validDate_bounds {dt : PyDate} (h : validDate dt = true) :
    1 ≤ dt.y ∧ dt.y ≤ 9999 ∧ 1 ≤ dt.m ∧ dt.m ≤ 12 ∧ 1 ≤ dt.d ∧
      dt.d ≤ daysInMonth dt.y dt.m := by
  unfold validDate at h
  simp only [decide_eq_true_eq, Bool.and_eq_true] at h
  exact_mod_cast h

theorem unrender_render {dt : PyDate} (hm : dt.m < 100) (hd : dt.d < 100)
    (hy : dt.y < 10000) : unrenderMDY (renderMDY dt) = some dt := by
  obtain ⟨y, m, d⟩ := dt
  simp only at hm hd hy
  have h10 : ∀ k : Nat, k % 10 < 10 := fun k => Nat.mod_lt _ (by omega)
  have hdig : ∀ k : Nat, isDigitC (digitChar (k % 10)) = true :=
    fun k => isDigitC_digitChar (h10 k)
  have tdig : ∀ k : Nat, toDig (digitChar (k % 10)) = k % 10 :=
    fun k => toDig_digitChar (h10 k)
  simp only [renderMDY, pad2, pad4, unrenderMDY, List.cons_append,
    List.nil_append]
  rw [if_pos (by simp [hdig])]
  simp only [Option.some.injEq]
  simp only [tdig]
  congr 1 <;> omega

theorem valid_render_bounds {dt : PyDate} (h : validDate dt = true) :
    dt.m < 100 ∧ dt.d < 100 ∧ dt.y < 10000 := by
  obtain ⟨-, hy, -, hm, -, hd⟩ := validDate_bounds h
  have := daysInMonth_le_31 dt.y dt.m
  omega

theorem isCanon_render {dt : PyDate} (h : validDate dt = true) :
    isCanonMDY (renderMDY dt) = true := by
  obtain ⟨hm, hd, hy⟩ := valid_render_bounds h
  unfold isCanonMDY
  rw [unrender_render hm hd hy]
  exact h

theorem render_inj {a b : PyDate} (ha : validDate a = true)
    (hb : validDate b = true) (h : renderMDY a = renderMDY b) : a = b := by
  obtain ⟨ham, had, hay⟩ := valid_render_bounds ha
  obtain ⟨hbm, hbd, hby⟩ := valid_render_bounds hb
  have := unrender_render ham had hay
  rw [h, unrender_render hbm hbd hby] at this
  exact (Option.some.injEq _ _ ▸ this).symm

theorem strptimeMDY_valid {s : List Char} {d : PyDate}
    (h : strptimeMDY s = some d) : validDate d = true := by
  unfold strptimeMDY at h
  repeat' split at h
  all_goals try simp_all
  all_goals (obtain ⟨h1, rfl⟩ := h; exact h1)

theorem strptimeDMY_valid {s : List Char} {d : PyDate}
    (h : strptimeDMY s = some d) : validDate d = true := by
  unfold strptimeDMY at h
  repeat' split at h
  all_goals try simp_all
  all_goals (obtain ⟨h1, rfl⟩ := h; exact h1)

theorem parseISO_valid {s : List Char} {d : PyDate}
    (h : parseISO s = some d) : validDate d = true := by
  unfold parseISO at h
  repeat' split at h
  all_goals try simp_all
  all_goals (obtain ⟨h1, rfl⟩ := h; exact h1)

theorem pdToDatetimeStr_valid {s : List Char} {d : PyDate}
    (h : pdToDatetimeStr s = some d) : validDate d = true := by
  rw [pdToDatetimeStr.eq_def] at h
  simp only at h
  repeat' split at h
  all_goals first
    | exact parseISO_valid h
    | exact strptimeMDY_valid h
    | simp_all

theorem normDate_canon (raw : List Char) :
    isCanonMDY (normDate raw) = true ∨ strptimeMDY (normDate raw) = none := by
  unfold normDate
  cases h : strptimeMDY raw with
  | none => right; exact h
  | some d => left; exact isCanon_render (strptimeMDY_valid h)

/-- Lexicographic value of a date, used to show distinctness of successive
days. -/
def dval (dt : PyDate) : Nat := (dt.y * 16 + dt.m) * 32 + dt.d

theorem daysInMonth_12 (y : Nat) : daysInMonth y 12 = 31 := by
  unfold daysInMonth
  norm_num

theorem nextDay?_step {dt dt' : PyDate} (hv : validDate dt = true)
    (h : nextDay? dt = some dt') : validDate dt' = true ∧ dval dt < dval dt' := by
  obtain ⟨hy1, hy2, hm1, hm2, hd1, hd2⟩ := validDate_bounds hv
  have hdim31 := daysInMonth_le_31 dt.y dt.m
  unfold nextDay? at h
  split at h
  · exact absurd h (by simp)
  · rename_i hmax
    injection h with h
    subst h
    unfold nextDayU
    split
    · refine ⟨?_, ?_⟩
      · unfold validDate
        simp only [decide_eq_true_eq]
        refine ⟨hy1, hy2, hm1, hm2, by omega, by omega⟩
      · simp only [dval]; omega
    · split
      · refine ⟨?_, ?_⟩
        · unfold validDate
          simp only [decide_eq_true_eq]
          have := one_le_daysInMonth dt.y (dt.m + 1)
          refine ⟨hy1, hy2, by omega, by omega, by omega, this⟩
        · simp only [dval]; omega
      · rename_i hnd hnm
        have hm12 : dt.m = 12 := by omega
        have hd31 : dt.d = 31 := by
          rw [hm12] at hd2 hnd
          rw [daysInMonth_12] at hd2 hnd
          omega
        have hy : dt.y ≠ 9999 := fun hyy => hmax ⟨hyy, hm12, hd31⟩
        refine ⟨?_, ?_⟩
        · unfold validDate
          simp only [decide_eq_true_eq]
          have := one_le_daysInMonth (dt.y + 1) 1
          refine ⟨by omega, by omega, by omega, by omega, by omega, this⟩
        · simp only [dval]; omega

theorem addDays?_eq_addDaysU {dt : PyDate} :
    ∀ {n : Nat} {a : PyDate}, addDays? dt n = some a → a = addDaysU dt n := by
  intro n
  induction n with
  | zero =>
    intro a h
    simp only [addDays?, Option.some.injEq] at h
    subst h
    rfl
  | succ k ih =>
    intro a h
    simp only [addDays?] at h
    cases hk : addDays? dt k with
    | none => rw [hk] at h; exact absurd h (by simp)
    | some b =>
      rw [hk] at h
      simp only [Option.some_bind] at h
      unfold nextDay? at h
      split at h
      · exact absurd h (by simp)
      · injection h with h
        subst h
        rw [addDaysU, ← ih hk]

theorem addDays?_valid {dt : PyDate} (hv : validDate dt = true) :
    ∀ {n : Nat} {a : PyDate}, addDays? dt n = some a →
      validDate a = true ∧ dval dt + n ≤ dval a := by
  intro n
  induction n with
  | zero =>
    intro a h
    simp only [addDays?, Option.some.injEq] at h
    subst h
    exact ⟨hv, by omega⟩
  | succ k ih =>
    intro a h
    simp only [addDays?] at h
    cases hk : addDays? dt k with
    | none => rw [hk] at h; exact absurd h (by simp)
    | some b =>
      rw [hk] at h
      simp only [Option.some_bind] at h
      obtain ⟨hvb, hkb⟩ := ih hk
      obtain ⟨hva, hstep⟩ := nextDay?_step hvb h
      exact ⟨hva, by omega⟩

theorem addDays?_mono_isSome {dt : PyDate} :
    ∀ {m n : Nat}, m ≤ n → (addDays? dt n).isSome → (addDays? dt m).isSome := by
  intro m n hmn h
  induction n with
  | zero =>
    have : m = 0 := by omega
    subst this
    exact h
  | succ k ih =>
    rcases Nat.lt_or_ge m (k + 1) with hlt | hge
    · apply ih (by omega)
      simp only [addDays?] at h
      cases hk : addDays? dt k with
      | none => rw [hk] at h; simp at h
      | some b => simp [hk]
    · have : m = k + 1 := by omega
      subst this
      exact h

theorem addDays?_add {dt : PyDate} :
    ∀ (m n : Nat), addDays? dt (m + n) =
      (addDays? dt m).bind (fun x => addDays? x n) := by
  intro m n
  induction n with
  | zero =>
    cases h : addDays? dt m <;> simp [addDays?, h]
  | succ k ih =>
    show addDays? dt (m + k + 1) = _
    simp only [addDays?, ih]
    cases h : addDays? dt m with
    | none => simp
    | some b => simp [addDays?]

theorem addDays?_render_ne {dt : PyDate} (hv : validDate dt = true)
    {i j : Nat} {a b : PyDate} (hij : i < j) (ha : addDays? dt i = some a)
    (hb : addDays? dt j = some b) : renderMDY a ≠ renderMDY b := by
  obtain ⟨hva, -⟩ := addDays?_valid hv ha
  have hj : j = i + (j - i) := by omega
  rw [hj, addDays?_add i (j - i), ha] at hb
  simp only [Option.some_bind] at hb
  obtain ⟨hvb, hab⟩ := addDays?_valid hva hb
  intro hr
  have := render_inj hva hvb hr
  subst this
  omega

/-- What the claim calls the non-zero columns of the Leave row: one PTO entry
per strictly positive column, at the column's weekday offset, in column
order. -/
def ptoExpected (sd : PyDate) (hs : List Rat) (i : Nat) : List GridEntry :=
  ((hs.enumFrom i).filter (fun p => 0 < p.2)).map (fun p =>
    ⟨renderMDY (addDaysU sd p.1), daysOfWeek.getD p.1 (strL "???"), p.2,
      strL "PTO"⟩)

theorem ptoLoop_eq {sd : PyDate} (hv : validDate sd = true) :
    ∀ (hs : List Rat) (i : Nat) (seen : List (List Char)),
      (∀ k, k < i + hs.length → (addDays? sd k).isSome) →
      (∀ k, i ≤ k → k < i + hs.length → renderMDY (addDaysU sd k) ∉ seen) →
      ∃ s', ptoLoop sd hs i seen = some (ptoExpected sd hs i, s') := by
  intro hs
  induction hs with
  | nil =>
    intro i seen _ _
    exact ⟨seen, by simp [ptoLoop, ptoExpected]⟩
  | cons h t ih =>
    intro i seen hsome hfresh
    have hlen : i < i + (h :: t).length := by simp
    by_cases hpos : 0 < h
    · have hiS : (addDays? sd i).isSome := hsome i hlen
      obtain ⟨cd, hcd⟩ := Option.isSome_iff_exists.mp hiS
      have hcdU : cd = addDaysU sd i := addDays?_eq_addDaysU hcd
      subst hcdU
      have hds : renderMDY (addDaysU sd i) ∉ seen := hfresh i (Nat.le_refl i) hlen
      obtain ⟨s', hs'⟩ := ih (i + 1) (seen ++ [renderMDY (addDaysU sd i)])
        (fun k hk => hsome k (by simp at hk ⊢; omega))
        (fun k hk1 hk2 => by
          simp only [List.mem_append, List.mem_singleton]
          push_neg
          refine ⟨hfresh k (by omega) (by simp at hk2 ⊢; omega), ?_⟩
          have hkS : (addDays? sd k).isSome := hsome k (by simp at hk2 ⊢; omega)
          obtain ⟨ck, hck⟩ := Option.isSome_iff_exists.mp hkS
          have := addDays?_eq_addDaysU hck
          subst this
          exact (addDays?_render_ne hv (by omega) hcd hck).symm)
      refine ⟨s', ?_⟩
      simp only [ptoLoop, if_pos hpos, hcd, if_neg hds, hs', Option.map_some]
      simp [ptoExpected, List.enumFrom_cons, List.filter_cons, hpos]
    · obtain ⟨s', hs'⟩ := ih (i + 1) seen
        (fun k hk => hsome k (by simp at hk ⊢; omega))
        (fun k hk1 hk2 => hfresh k (by omega) (by simp at hk2 ⊢; omega))
      refine ⟨s', ?_⟩
      simp only [ptoLoop, if_neg hpos, hs']
      simp [ptoExpected, List.enumFrom_cons, List.filter_cons, hpos]

theorem bind_strptimeDMY_valid {o : Option (List Char)} {d : PyDate}
    (h : o.bind strptimeDMY = some d) : validDate d = true := by
  cases o with
  | none => simp at h
  | some s => exact strptimeDMY_valid h

theorem findStartDate_valid {text : List Char} {sd : PyDate}
    (h : findStartDate text = some sd) : validDate sd = true := by
  rw [findStartDate.eq_def] at h
  simp only at h
  split at h
  · next heq =>
      injection h with h
      subst h
      exact bind_strptimeDMY_valid heq
  · split at h
    · next heq =>
        injection h with h
        subst h
        exact bind_strptimeDMY_valid heq
    · exact bind_strptimeDMY_valid h

theorem normalize_activity_cases (x : Option (List Char)) :
    normalize_activity x = strL "PTO" ∨ normalize_activity x = strL "WORK" := by
  unfold normalize_activity
  cases x <;> dsimp only <;> split <;> simp

theorem processExcelRow_fields {cols : List (List Char)}
    {actual : List (List Char × List Char)} {row : List Cell} {e : ExcelEntry}
    (h : processExcelRow cols actual row = some e) :
    e.day = get_day_from_date e.date ∧
    (e.activity = strL "PTO" ∨ e.activity = strL "WORK") := by
  unfold processExcelRow at h
  simp only at h
  split at h
  · exact absurd h (by simp)
  · split at h
    · exact absurd h (by simp)
    · injection h with h
      subst h
      exact ⟨rfl, normalize_activity_cases _⟩

/-- Date cells that keep the date normalization argument available: not a
numeric epoch value, and datetime cells hold real calendar dates (as pandas
Timestamps always do). -/
def dateCellOkB : Cell → Bool
  | .num _ => false
  | .dt d => validDate d
  | _ => true

/-- Hours cells that are numbers or missing (a string cell can smuggle a
textual zero past the guard). -/
def hoursCellOkB : Cell → Bool
  | .str _ => false
  | _ => true

theorem processExcelRow_hours {cols : List (List Char)}
    {actual : List (List Char × List Char)} {row : List Cell} {e : ExcelEntry}
    (hok : ∀ v, alookup (strL "hours") actual = some v →
      hoursCellOkB (getCell cols row v) = true)
    (h : processExcelRow cols actual row = some e) : e.hours ≠ 0 := by
  unfold processExcelRow at h
  cases halo : alookup (strL "hours") actual with
  | none =>
    rw [halo] at h
    simp [cellIsNA] at h
  | some v =>
    rw [halo] at h
    simp only at h
    have hcell := hok v halo
    split at h
    · exact absurd h (by simp)
    · next hguard =>
      push_neg at hguard
      obtain ⟨-, hna, -, hz⟩ := hguard
      split at h
      · exact absurd h (by simp)
      · next hours hfl =>
        injection h with h
        subst h
        simp only
        cases hc : getCell cols row v with
        | na => rw [hc] at hna; simp [cellIsNA] at hna
        | str s => rw [hc] at hcell; simp [hoursCellOkB] at hcell
        | dt d => rw [hc] at hfl; simp [pyFloatCell] at hfl
        | num q =>
          rw [hc] at hfl hz
          simp only [pyFloatCell, Option.some.injEq] at hfl
          subst hfl
          simp only [cellEqZero] at hz
          simpa using hz

theorem processExcelRow_date {cols : List (List Char)}
    {actual : List (List Char × List Char)} {row : List Cell} {e : ExcelEntry}
    (hok : ∀ v, alookup (strL "date") actual = some v →
      dateCellOkB (getCell cols row v) = true)
    (h : processExcelRow cols actual row = some e) :
    isCanonMDY e.date = true ∨ pdToDatetimeStr e.date = none := by
  unfold processExcelRow at h
  cases halo : alookup (strL "date") actual with
  | none =>
    rw [halo] at h
    simp [cellIsNA] at h
  | some v =>
    rw [halo] at h
    simp only at h
    have hcell := hok v halo
    split at h
    · exact absurd h (by simp)
    · next hguard =>
      push_neg at hguard
      obtain ⟨hna, -, -, -⟩ := hguard
      split at h
      · exact absurd h (by simp)
      · next hours hfl =>
        injection h with h
        subst h
        simp only
        cases hc : getCell cols row v with
        | na => rw [hc] at hna; simp [cellIsNA] at hna
        | num q => rw [hc] at hcell; simp [dateCellOkB] at hcell
        | dt d =>
          rw [hc] at hcell
          simp only [dateCellOkB] at hcell
          left
          exact isCanon_render hcell
        | str s =>
          simp only [format_date]
          cases hpd : pdToDatetimeStr s with
          | some d2 =>
            left
            exact isCanon_render (pdToDatetimeStr_valid hpd)
          | none =>
            right
            exact hpd

theorem processExcelRows_mem {cols : List (List Char)}
    {actual : List (List Char × List Char)} :
    ∀ (rows : List (List Cell)) (e : ExcelEntry),
      (e ∈ (processExcelRows cols actual rows).1 ∨
       e ∈ (processExcelRows cols actual rows).2.1) →
      ∃ r ∈ rows, processExcelRow cols actual r = some e := by
  intro rows
  induction rows with
  | nil => intro e he; simp [processExcelRows] at he
  | cons r t ih =>
    intro e he
    simp only [processExcelRows] at he
    cases hr : processExcelRow cols actual r with
    | none =>
      rw [hr] at he
      obtain ⟨a, ha, hfa⟩ := ih e he
      exact ⟨a, List.mem_cons_of_mem r ha, hfa⟩
    | some x =>
      rw [hr] at he
      rcases hpt : processExcelRows cols actual t with ⟨w, pt2⟩
      rcases pt2 with ⟨p, th⟩
      rw [hpt] at he
      simp only at he
      split at he
      · rcases he with hw | hp
        · obtain ⟨a, ha, hfa⟩ := ih e (by rw [hpt]; exact Or.inl hw)
          exact ⟨a, List.mem_cons_of_mem r ha, hfa⟩
        · rcases List.mem_cons.mp hp with rfl | hp'
          · exact ⟨r, List.mem_cons_self r t, hr⟩
          · obtain ⟨a, ha, hfa⟩ := ih e (by rw [hpt]; exact Or.inr hp')
            exact ⟨a, List.mem_cons_of_mem r ha, hfa⟩
      · rcases he with hw | hp
        · rcases List.mem_cons.mp hw with rfl | hw'
          · exact ⟨r, List.mem_cons_self r t, hr⟩
          · obtain ⟨a, ha, hfa⟩ := ih e (by rw [hpt]; exact Or.inl hw')
            exact ⟨a, List.mem_cons_of_mem r ha, hfa⟩
        · obtain ⟨a, ha, hfa⟩ := ih e (by rw [hpt]; exact Or.inr hp)
          exact ⟨a, List.mem_cons_of_mem r ha, hfa⟩

theorem excel_entry_origin {headers : List (List Char)}
    {rows : List (List Cell)} {res : ExcelResults} {e : ExcelEntry}
    (h : extract_timesheet_data_from_excel headers rows = some res)
    (he : e ∈ res.work_entries ∨ e ∈ res.pto_entries) :
    ∃ r ∈ rows,
      processExcelRow (headers.map (fun s => pyLower (pyStrip s)))
        (resolveColumns (headers.map (fun s => pyLower (pyStrip s)))) r =
        some e := by
  rw [extract_timesheet_data_from_excel.eq_def] at h
  simp only at h
  split at h
  · exact absurd h (by simp)
  · split at h
    · exact absurd h (by simp)
    · rcases hpr : processExcelRows
        (headers.map (fun s => pyLower (pyStrip s)))
        (resolveColumns (headers.map (fun s => pyLower (pyStrip s)))) rows
        with ⟨w, pt2⟩
      rcases pt2 with ⟨p, th⟩
      rw [hpr] at h
      simp only at h
      injection h with h
      subst h
      apply processExcelRows_mem rows e
      rw [hpr]
      exact he

theorem isPref_iff : ∀ {p l : List Char}, isPref p l = true ↔ ∃ t, l = p ++ t := by
  intro p
  induction p with
  | nil => intro l; simp [isPref]
  | cons q qs ih =>
    intro l
    cases l with
    | nil => simp [isPref]
    | cons c cs =>
      simp only [isPref, Bool.and_eq_true, decide_eq_true_eq, ih,
        List.cons_append, List.cons.injEq]
      constructor
      · rintro ⟨rfl, t, rfl⟩
        exact ⟨t, rfl, rfl⟩
      · rintro ⟨t, rfl, rfl⟩
        exact ⟨rfl, t, rfl⟩

theorem containsSub_iff : ∀ {p l : List Char},
    containsSub p l = true ↔ ∃ a b, l = a ++ p ++ b := by
  intro p l
  induction l with
  | nil =>
    simp only [containsSub, isPref_iff]
    constructor
    · rintro ⟨t, ht⟩
      exact ⟨[], t, by simpa using ht⟩
    · rintro ⟨a, b, hab⟩
      have hlen := congrArg List.length hab
      simp only [List.length_nil, List.length_append] at hlen
      have hpnil : p = [] := List.length_eq_zero.mp (by omega)
      exact ⟨[], by simp [hpnil]⟩
  | cons c t ih =>
    simp only [containsSub, Bool.or_eq_true, isPref_iff, ih]
    constructor
    · rintro (⟨s, hs⟩ | ⟨a, b, hab⟩)
      · exact ⟨[], s, by simpa using hs⟩
      · exact ⟨c :: a, b, by simp [hab]⟩
    · rintro ⟨a, b, hab⟩
      cases a with
      | nil => exact Or.inl ⟨b, by simpa using hab⟩
      | cons x a' =>
        simp only [List.cons_append, List.cons.injEq] at hab
        exact Or.inr ⟨a', b, hab.2⟩

theorem containsSub_rev {p l : List Char} :
    containsSub p.reverse l.reverse = true ↔ containsSub p l = true := by
  rw [containsSub_iff, containsSub_iff]
  constructor
  · rintro ⟨a, b, h⟩
    refine ⟨b.reverse, a.reverse, ?_⟩
    have h2 := congrArg List.reverse h
    simpa [List.reverse_append, List.append_assoc] using h2
  · rintro ⟨a, b, h⟩
    refine ⟨b.reverse, a.reverse, ?_⟩
    subst h
    simp [List.reverse_append, List.append_assoc]

theorem containsSub_rev' {p x : List Char} :
    containsSub p x.reverse = true ↔ containsSub p.reverse x = true := by
  have h := @containsSub_rev p x.reverse
  rw [List.reverse_reverse] at h
  exact h.symm

theorem containsSub_dropWhile {p : List Char} (hp : p ≠ [])
    (hpw : ∀ c ∈ p, isSpaceC c = false) :
    ∀ l : List Char,
      containsSub p (l.dropWhile isSpaceC) = true ↔ containsSub p l = true := by
  intro l
  induction l with
  | nil => simp
  | cons c t ih =>
    by_cases hsp : isSpaceC c = true
    · rw [List.dropWhile_cons_of_pos hsp]
      rw [ih]
      simp only [containsSub, Bool.or_eq_true]
      constructor
      · exact Or.inr
      · rintro (hpref | hrest)
        · exfalso
          cases p with
          | nil => exact hp rfl
          | cons q qs =>
            simp only [isPref, Bool.and_eq_true, decide_eq_true_eq] at hpref
            have hq := hpw q (List.mem_cons_self q qs)
            rw [hpref.1] at hq
            rw [hq] at hsp
            exact Bool.false_ne_true hsp
        · exact hrest
    · rw [List.dropWhile_cons_of_neg hsp]

theorem containsSub_strip {p : List Char} (hp : p ≠ [])
    (hpw : ∀ c ∈ p, isSpaceC c = false) (l : List Char) :
    containsSub p (pyStrip l) = true ↔ containsSub p l = true := by
  have hp' : p.reverse ≠ [] := by simpa using hp
  have hpw' : ∀ c ∈ p.reverse, isSpaceC c = false := by
    intro c hc
    exact hpw c (List.mem_reverse.mp hc)
  unfold pyStrip
  rw [containsSub_rev' (p := p),
    containsSub_dropWhile hp' hpw' (l.dropWhile isSpaceC).reverse,
    ← containsSub_rev' (p := p) (x := (l.dropWhile isSpaceC).reverse)]
  rw [List.reverse_reverse]
  exact containsSub_dropWhile hp hpw l

theorem mkWorkEntry_shape {cl : Option (List Char)} {g : WorkGroups}
    {e : PdfEntry} (h : mkWorkEntry cl g = some e) :
    e = ⟨normDate g.date, pyUpper g.day, some g.start_time, some g.stop_time,
      pyFloat g.hours, strL "Work", cl⟩ := by
  unfold mkWorkEntry at h
  split at h
  · exact absurd h (by simp)
  · next hh hf =>
      injection h with h
      subst h
      rw [hf]

theorem mkAltEntry_shape {cl : Option (List Char)} {g : AltGroups}
    {e : PdfEntry} (h : mkAltEntry cl g = some e) :
    e = ⟨normDate g.date, pyUpper g.day, none, none, pyFloat g.paid,
      strL "Work", cl⟩ := by
  unfold mkAltEntry at h
  split at h
  · exact absurd h (by simp)
  · next hh hf =>
      injection h with h
      subst h
      rw [hf]

theorem isEmpty_iff_nil {α : Type} {l : List α} : l.isEmpty = true ↔ l = [] := by
  cases l <;> simp

/-- Structure of extract_timesheet_entries: when it returns a result, the
work entries come from the primary matches, or from the fallback matches
exactly when the primary found none; the PTO entries are always the mapped
PTO matches. -/
theorem extract_entries_structure {text : List Char} {c : Option (List Char)}
    {r : PdfExtractResult} (h : extract_timesheet_entries text c = some r) :
    ((findAll matchWorkAt text = [] ∧
      mapMO (mkAltEntry (truthyClient c)) (findAll matchAltAt text) =
        some r.work_entries) ∨
     (findAll matchWorkAt text ≠ [] ∧
      mapMO (mkWorkEntry (truthyClient c)) (findAll matchWorkAt text) =
        some r.work_entries)) ∧
    r.pto_entries = (findAll matchPtoAt text).map (mkPtoEntry (truthyClient c)) := by
  unfold extract_timesheet_entries at h
  dsimp only at h
  cases hw : mapMO (mkWorkEntry (truthyClient c)) (findAll matchWorkAt text) with
  | none => rw [hw] at h; exact absurd h (by simp)
  | some w0 =>
    rw [hw] at h
    dsimp only at h
    have hlen := mapMO_length _ hw
    by_cases hmt : w0.isEmpty = true
    · rw [if_pos hmt] at h
      have hempty : findAll matchWorkAt text = [] := by
        rw [isEmpty_iff_nil] at hmt
        subst hmt
        exact List.length_eq_zero.mp hlen.symm
      cases halt : mapMO (mkAltEntry (truthyClient c))
          (findAll matchAltAt text) with
      | none => rw [halt] at h; exact absurd h (by simp)
      | some wa =>
        rw [halt] at h
        injection h with h
        subst h
        exact ⟨Or.inl ⟨hempty, rfl⟩, rfl⟩
    · rw [if_neg hmt] at h
      injection h with h
      subst h
      refine ⟨Or.inr ⟨?_, rfl⟩, rfl⟩
      intro hfa
      rw [hfa] at hlen
      simp only [List.length_nil] at hlen
      rw [isEmpty_iff_nil, List.length_eq_zero.mp hlen] at hmt
      exact hmt rfl

/-! ## Claims -/

/-- C6: a raw tabular activity label classifies as PTO exactly when it
contains the substring pto in any letter case (here: its upper-casing
contains PTO), every other label classifies as WORK, and an absent activity
column classifies as WORK. -/
theorem c6_activity_classification :
    (∀ s : List Char,
      (normalize_activity (some s) = strL "PTO" ↔
        containsSub (strL "PTO") (pyUpper s) = true) ∧
      (normalize_activity (some s) = strL "PTO" ∨
        normalize_activity (some s) = strL "WORK")) ∧
    normalize_activity none = strL "WORK" := by
  refine ⟨fun s => ⟨?_, normalize_activity_cases _⟩, by decide⟩
  have hiff := containsSub_strip (p := strL "PTO") (by decide) (by decide)
    (pyUpper s)
  unfold normalize_activity
  dsimp only
  by_cases hc : containsSub (strL "PTO") (pyStrip (pyUpper s)) = true
  · rw [if_pos hc]
    simp [hiff.mp hc]
  · rw [if_neg hc]
    constructor
    · intro h
      exact absurd h (by decide)
    · intro h
      exact absurd (hiff.mpr h) hc

/-- C4 counterexample: with a non-empty mapping that lacks the sender's
normalized address, both resolved fields are the full normalized address,
not the local part jdoe the claim promises. -/
theorem c4_counterexample :
    get_employee_name (strL "jdoe@co.com")
      [(strL "other@x.com", ⟨some (strL "Jane"), some (strL "E7"), none, []⟩)] =
      strL "jdoe@co.com" ∧
    get_employee_id (strL "jdoe@co.com")
      [(strL "other@x.com", ⟨some (strL "Jane"), some (strL "E7"), none, []⟩)] =
      strL "jdoe@co.com" ∧
    strL "jdoe@co.com" ≠ strL "jdoe" := ⟨by decide, by decide, by decide⟩

/-- C4 amended: with an empty mapping both fields fall back to the raw
sender's local part; with a non-empty mapping lacking the normalized key they
fall back to the full normalized address. -/
theorem c4_identity_fallback (sender : List Char)
    (mapping : List (List Char × EmpInfo)) :
    (mapping = [] →
      get_employee_name sender mapping = localPart sender ∧
      get_employee_id sender mapping = localPart sender) ∧
    (mapping ≠ [] → alookup (clean_email sender) mapping = none →
      get_employee_name sender mapping = clean_email sender ∧
      get_employee_id sender mapping = clean_email sender) := by
  constructor
  · rintro rfl
    exact ⟨rfl, rfl⟩
  · intro hne hmiss
    have hemp : mapping.isEmpty = false := by
      cases mapping with
      | nil => exact absurd rfl hne
      | cons a t => rfl
    constructor
    · unfold get_employee_name
      rw [if_neg (by simp [hemp])]
      dsimp only
      rw [hmiss]
    · unfold get_employee_id
      rw [if_neg (by simp [hemp])]
      dsimp only
      rw [hmiss]
      rfl

/-- C4 witness: both fallbacks evaluated at concrete senders. -/
theorem c4_identity_fallback_witness :
    get_employee_name (strL "jdoe@co.com") [] = strL "jdoe" ∧
    get_employee_name (strL "a@b.c")
      [(strL "other@x.com", ⟨none, none, none, []⟩)] = strL "a@b.c" := by
  constructor
  · rw [((c4_identity_fallback (strL "jdoe@co.com") []).1 rfl).1]
    decide
  · rw [((c4_identity_fallback (strL "a@b.c")
      [(strL "other@x.com", ⟨none, none, none, []⟩)]).2 (by decide)
      (by decide)).1]
    decide

/-- C8: the spec's grid example: four WORK entries for Tuesday through
Friday, eight hours each, and no PTO entries. -/
theorem c8_grid_example :
    (extract_timesheet_from_ocr_text c8Text).workEntries =
      [⟨strL "01/02/2024", strL "TUE", 8, strL "Work"⟩,
       ⟨strL "01/03/2024", strL "WED", 8, strL "Work"⟩,
       ⟨strL "01/04/2024", strL "THU", 8, strL "Work"⟩,
       ⟨strL "01/05/2024", strL "FRI", 8, strL "Work"⟩] ∧
    (extract_timesheet_from_ocr_text c8Text).ptoData = some [] := by decide

/-- C2 counterexample: the document-text path copies the source weekday
label FRI although 01/15/2024 is a Monday, so day is not derived from the
canonical date. -/
theorem c2_counterexample :
    (extract_timesheet_entries c2Text none).map
      (fun r => r.work_entries.map (fun e => (e.date, e.day))) =
      some [(strL "01/15/2024", strL "FRI")] ∧
    get_day_from_date (strL "01/15/2024") = strL "MON" ∧
    strL "FRI" ≠ strL "MON" := ⟨by decide, by decide, by decide⟩

/-- C3 counterexample: a matched date 99/99/2024 fails strptime and leaves
the extractor unchanged, so an entry leaves with a non-canonical date. -/
theorem c3_counterexample :
    (extract_timesheet_entries c3Text none).map
      (fun r => r.work_entries.map (fun e => e.date)) =
      some [strL "99/99/2024"] ∧
    isCanonMDY (strL "99/99/2024") = false := ⟨by decide, by decide⟩

/-- C5 counterexample: the document-text path emits a work entry whose
hours are exactly zero. -/
theorem c5_counterexample :
    (extract_timesheet_entries c5Text none).map
      (fun r => r.work_entries.map (fun e => e.hours)) =
      some [some 0] := by decide

/-- C9 counterexample: the extract function raises ValueError (none) on a
text whose captured hours group is 1.2.3, although the work pattern
matched. -/
theorem c9_counterexample :
    extract_timesheet_entries c9Text none = none ∧
    (findAll matchWorkAt c9Text).length = 1 := ⟨by decide, by decide⟩

/-- C10 counterexample: with start date 9999-12-28 the Leave row matches and
has three non-zero columns, but date arithmetic overflows and the call
returns no PTO data at all. -/
theorem c10_counterexample :
    (extract_timesheet_from_ocr_text c10oText).ptoData = none ∧
    (searchFirst matchLeaveAt c10oText).isSome ∧
    findStartDate c10oText = some ⟨9999, 12, 28⟩ :=
  ⟨by decide, by decide, by decide⟩

/-- C7: the fallback work pattern is applied exactly when the primary
pattern finds zero matches, and on the spec's fallback example the result is
one WORK entry with hours 8.0 and date 01/15/2024. -/
theorem c7_fallback_only_when_primary_empty :
    (∀ (text : List Char) (c : Option (List Char)) (r : PdfExtractResult),
      extract_timesheet_entries text c = some r →
      ((findAll matchWorkAt text = [] →
        mapMO (mkAltEntry (truthyClient c)) (findAll matchAltAt text) =
          some r.work_entries) ∧
       (findAll matchWorkAt text ≠ [] →
        mapMO (mkWorkEntry (truthyClient c)) (findAll matchWorkAt text) =
          some r.work_entries))) ∧
    extract_timesheet_entries c7Text none =
      some ⟨[⟨strL "01/15/2024", strL "MON", none, none, some 8, strL "Work",
        none⟩], []⟩ := by
  constructor
  · intro text c r h
    rcases (extract_entries_structure h).1 with ⟨hemp, halt⟩ | ⟨hne, hw⟩
    · exact ⟨fun _ => halt, fun hne => absurd hemp hne⟩
    · exact ⟨fun hemp => absurd hemp hne, fun _ => hw⟩
  · decide

/-- C7 witness: on the fallback example the fallback pattern supplies the
single work entry. -/
theorem c7_fallback_witness :
    mapMO (mkAltEntry (truthyClient none)) (findAll matchAltAt c7Text) =
      some [⟨strL "01/15/2024", strL "MON", none, none, some 8, strL "Work",
        none⟩] := by
  have h := (c7_fallback_only_when_primary_empty.1 c7Text none _
    c7_fallback_only_when_primary_empty.2).1 (by decide)
  exact h

/-- C9 amended: the document-text extractor returns a result whenever every
captured hours group parses as a float; the only failure mode is a captured
group that is not a float literal. -/
theorem c9_total_when_hours_parse (text : List Char) (c : Option (List Char))
    (h1 : ∀ g ∈ findAll matchWorkAt text, (pyFloat g.hours).isSome)
    (h2 : findAll matchWorkAt text = [] →
      ∀ g ∈ findAll matchAltAt text, (pyFloat g.paid).isSome) :
    (extract_timesheet_entries text c).isSome := by
  unfold extract_timesheet_entries
  dsimp only
  have hw : (mapMO (mkWorkEntry (truthyClient c))
      (findAll matchWorkAt text)).isSome := by
    apply mapMO_isSome
    intro g hg
    have hgf := h1 g hg
    unfold mkWorkEntry
    cases hf : pyFloat g.hours with
    | none => rw [hf] at hgf; simp at hgf
    | some q => simp
  obtain ⟨w0, hw0⟩ := Option.isSome_iff_exists.mp hw
  rw [hw0]
  dsimp only
  by_cases hmt : w0.isEmpty = true
  · rw [if_pos hmt]
    have hempty : findAll matchWorkAt text = [] := by
      have hlen := mapMO_length _ hw0
      rw [isEmpty_iff_nil] at hmt
      subst hmt
      exact List.length_eq_zero.mp hlen.symm
    have halt : (mapMO (mkAltEntry (truthyClient c))
        (findAll matchAltAt text)).isSome := by
      apply mapMO_isSome
      intro g hg
      have hgf := h2 hempty g hg
      unfold mkAltEntry
      cases hf : pyFloat g.paid with
      | none => rw [hf] at hgf; simp at hgf
      | some q => simp
    obtain ⟨wa, hwa⟩ := Option.isSome_iff_exists.mp halt
    rw [hwa]
    simp
  · rw [if_neg hmt]
    simp

/-- C9 witness: the extractor succeeds on the empty text. -/
theorem c9_total_witness : (extract_timesheet_entries [] none).isSome :=
  c9_total_when_hours_parse [] none (by decide) (by decide)

/-- C2 amended: the tabular path always derives day from the canonical date
string; the document-text path copies the matched source weekday label,
only upper-cased, for primary, fallback and PTO entries alike. -/
theorem c2_day_from_date_or_label :
    (∀ (headers : List (List Char)) (rows : List (List Cell))
        (res : ExcelResults),
      extract_timesheet_data_from_excel headers rows = some res →
      ∀ e, (e ∈ res.work_entries ∨ e ∈ res.pto_entries) →
        e.day = get_day_from_date e.date) ∧
    (∀ (text : List Char) (c : Option (List Char)) (r : PdfExtractResult),
      extract_timesheet_entries text c = some r →
      ((findAll matchWorkAt text ≠ [] →
        r.work_entries.map (fun e => e.day) =
          (findAll matchWorkAt text).map (fun g => pyUpper g.day)) ∧
       (findAll matchWorkAt text = [] →
        r.work_entries.map (fun e => e.day) =
          (findAll matchAltAt text).map (fun g => pyUpper g.day)) ∧
       r.pto_entries.map (fun e => e.day) =
         (findAll matchPtoAt text).map (fun g => pyUpper g.day))) := by
  constructor
  · intro headers rows res h e he
    obtain ⟨row, -, hrow⟩ := excel_entry_origin h he
    exact (processExcelRow_fields hrow).1
  · intro text c r h
    obtain ⟨hstruct, hpto⟩ := extract_entries_structure h
    have hptoMap : r.pto_entries.map (fun e => e.day) =
        (findAll matchPtoAt text).map (fun g => pyUpper g.day) := by
      rw [hpto, List.map_map]
      rfl
    rcases hstruct with ⟨hemp, halt⟩ | ⟨hne, hw⟩
    · refine ⟨fun hne => absurd hemp hne, fun _ => ?_, hptoMap⟩
      exact mapMO_map _ _ _
        (fun a b hab => by rw [mkAltEntry_shape hab]) halt
    · refine ⟨fun _ => ?_, fun hemp => absurd hemp hne, hptoMap⟩
      exact mapMO_map _ _ _
        (fun a b hab => by rw [mkWorkEntry_shape hab]) hw

/-- C2 witness: on a concrete primary-pattern line the emitted day is the
upper-cased source label. -/
theorem c2_day_witness :
    ([⟨strL "01/15/2024", strL "FRI", some (strL "08:00 AM"),
      some (strL "05:00 PM"), some 8, strL "Work", none⟩] : List PdfEntry).map
      (fun e => e.day) =
      (findAll matchWorkAt c2Text).map (fun g => pyUpper g.day) := by
  exact (c2_day_from_date_or_label.2 c2Text none
    ⟨[⟨strL "01/15/2024", strL "FRI", some (strL "08:00 AM"),
      some (strL "05:00 PM"), some 8, strL "Work", none⟩], []⟩
    (by decide)).1 (by decide)

/-- C3 amended: an entry's date is canonical MM/DD/YYYY whenever the raw
value parses (datetime cells, parseable strings, calendar-valid regex
matches); when parsing fails the raw string passes through unchanged. -/
theorem c3_date_normalization :
    (∀ (text : List Char) (c : Option (List Char)) (r : PdfExtractResult),
      extract_timesheet_entries text c = some r →
      ∀ e, (e ∈ r.work_entries ∨ e ∈ r.pto_entries) →
        isCanonMDY e.date = true ∨ strptimeMDY e.date = none) ∧
    (∀ (headers : List (List Char)) (rows : List (List Cell))
        (res : ExcelResults),
      extract_timesheet_data_from_excel headers rows = some res →
      (∀ row ∈ rows, ∀ v,
        alookup (strL "date")
          (resolveColumns (headers.map (fun s => pyLower (pyStrip s)))) =
          some v →
        dateCellOkB
          (getCell (headers.map (fun s => pyLower (pyStrip s))) row v) =
          true) →
      ∀ e, (e ∈ res.work_entries ∨ e ∈ res.pto_entries) →
        isCanonMDY e.date = true ∨ pdToDatetimeStr e.date = none) := by
  constructor
  · intro text c r h e he
    obtain ⟨hstruct, hpto⟩ := extract_entries_structure h
    rcases he with hw | hp
    · rcases hstruct with ⟨-, halt⟩ | ⟨-, hwork⟩
      · obtain ⟨g, -, hge⟩ := mapMO_mem _ halt e hw
        rw [mkAltEntry_shape hge]
        exact normDate_canon g.date
      · obtain ⟨g, -, hge⟩ := mapMO_mem _ hwork e hw
        rw [mkWorkEntry_shape hge]
        exact normDate_canon g.date
    · rw [hpto] at hp
      rw [List.mem_map] at hp
      obtain ⟨g, -, rfl⟩ := hp
      exact normDate_canon g.date
  · intro headers rows res h hok e he
    obtain ⟨row, hrow, hpe⟩ := excel_entry_origin h he
    exact processExcelRow_date (hok row hrow) hpe

/-- C3 witness: a valid matched date is normalized to canonical form. -/
theorem c3_date_witness :
    isCanonMDY
      (([⟨strL "01/15/2024", strL "FRI", some (strL "08:00 AM"),
        some (strL "05:00 PM"), some 8, strL "Work", none⟩] :
          List PdfEntry).headD
        ⟨[], [], none, none, none, [], none⟩).date = true ∨
    strptimeMDY
      (([⟨strL "01/15/2024", strL "FRI", some (strL "08:00 AM"),
        some (strL "05:00 PM"), some 8, strL "Work", none⟩] :
          List PdfEntry).headD
        ⟨[], [], none, none, none, [], none⟩).date = none := by
  exact c3_date_normalization.1 c2Text none
    ⟨[⟨strL "01/15/2024", strL "FRI", some (strL "08:00 AM"),
      some (strL "05:00 PM"), some 8, strL "Work", none⟩], []⟩
    (by decide) _ (Or.inl (by decide))

/-- C5 amended: in the tabular extractor a row with missing date or hours or
a numeric zero hours cell produces no entry, and every entry produced from
number-or-missing hours cells has non-zero hours; the document-text path
(see the counterexample) emits whatever hours the pattern captured,
including zero. -/
theorem c5_tabular_nonzero_hours (headers : List (List Char))
    (rows : List (List Cell)) (res : ExcelResults)
    (h : extract_timesheet_data_from_excel headers rows = some res)
    (hok : ∀ row ∈ rows, ∀ v,
      alookup (strL "hours")
        (resolveColumns (headers.map (fun s => pyLower (pyStrip s)))) =
        some v →
      hoursCellOkB
        (getCell (headers.map (fun s => pyLower (pyStrip s))) row v) = true) :
    ∀ e, (e ∈ res.work_entries ∨ e ∈ res.pto_entries) → e.hours ≠ 0 := by
  intro e he
  obtain ⟨row, hrow, hpe⟩ := excel_entry_origin h he
  exact processExcelRow_hours (hok row hrow) hpe

/-- C5 witness: the tabular row (2024-01-15, 8) yields an entry with
non-zero hours. -/
theorem c5_tabular_witness :
    (⟨strL "01/15/2024", strL "MON", strL "Unknown Client",
      strL "Unknown Project", 8, strL "WORK"⟩ : ExcelEntry).hours ≠ 0 := by
  refine c5_tabular_nonzero_hours [strL "Date", strL "Hours"]
    [[Cell.str (strL "2024-01-15"), Cell.num 8]]
    ⟨[⟨strL "01/15/2024", strL "MON", strL "Unknown Client",
      strL "Unknown Project", 8, strL "WORK"⟩], [], strL "Unknown Client",
      8 + 0⟩ rfl ?_ _ (Or.inl (by decide))
  intro row hrow v hv
  rw [List.mem_singleton] at hrow
  subst hrow
  have hres : alookup (strL "hours")
      (resolveColumns ([strL "Date", strL "Hours"].map
        (fun s => pyLower (pyStrip s)))) = some (strL "hours") := by decide
  rw [hres] at hv
  injection hv with hv
  subst hv
  decide

/-- C1: every record the per-document processors append, whether to the
aggregated extracted_data list or to the batch handed to the record sink,
has activity WORK; the PTO records each path builds are appended to
neither. -/
theorem c1_only_work_output (v : Bool) (xr : Option ExcelResults)
    (pr : Option PdfResultsIn) (ir : Option GridResults) (sender : List Char)
    (mapping : List (List Char × EmpInfo)) :
    (∀ e ∈ (process_excel_timesheet v xr sender mapping).1,
      e.activity = strL "WORK") ∧
    (∀ e ∈ (process_excel_timesheet v xr sender mapping).2,
      e.activity = strL "WORK") ∧
    (∀ e ∈ (process_pdf_timesheet pr sender mapping).1,
      e.activity = strL "WORK") ∧
    (∀ e ∈ (process_pdf_timesheet pr sender mapping).2,
      e.activity = strL "WORK") ∧
    (∀ e ∈ (process_image_timesheet ir sender mapping).1,
      e.activity = strL "WORK") ∧
    (∀ e ∈ (process_image_timesheet ir sender mapping).2,
      e.activity = strL "WORK") := by
  refine ⟨?_, ?_, ?_, ?_, ?_, ?_⟩ <;> intro e he
  · unfold process_excel_timesheet at he
    split at he
    · simp at he
    · split at he
      · simp at he
      · dsimp only at he
        rw [List.mem_map] at he
        obtain ⟨a, -, rfl⟩ := he
        rfl
  · unfold process_excel_timesheet at he
    split at he
    · simp at he
    · split at he
      · simp at he
      · dsimp only at he
        rw [List.mem_map] at he
        obtain ⟨a, -, rfl⟩ := he
        rfl
  · unfold process_pdf_timesheet at he
    split at he
    · simp at he
    · dsimp only at he
      rw [List.mem_map] at he
      obtain ⟨a, -, rfl⟩ := he
      rfl
  · unfold process_pdf_timesheet at he
    split at he
    · simp at he
    · dsimp only at he
      rw [List.mem_map] at he
      obtain ⟨a, -, rfl⟩ := he
      rfl
  · unfold process_image_timesheet at he
    split at he
    · simp at he
    · dsimp only at he
      rw [List.mem_map] at he
      obtain ⟨a, -, rfl⟩ := he
      rfl
  · unfold process_image_timesheet at he
    split at he
    · simp at he
    · dsimp only at he
      rw [List.mem_map] at he
      obtain ⟨a, -, rfl⟩ := he
      rfl

/-- C1 witness: a concrete Excel-path record appears in the output with
activity WORK. -/
theorem c1_only_work_witness :
    (⟨strL "01/15/2024", strL "MON", 8, some (strL "C"), .str (strL "P"),
      strL "jdoe", strL "jdoe", strL "jdoe@co.com", strL "WORK"⟩ :
        OutEntry).activity = strL "WORK" := by
  exact (c1_only_work_output true
    (some ⟨[⟨strL "01/15/2024", strL "MON", strL "C", strL "P", 8,
      strL "WORK"⟩], [], strL "C", 8⟩) none none (strL "jdoe@co.com") []).1
    _ (by decide)

/-- C10 amended: in one call, only the first Leave/PTO match is processed;
provided its seven offsets stay inside the supported calendar, they render
pairwise distinct dates, the duplicate-date branch never fires, and the PTO
entries are exactly the non-zero columns, one entry per non-zero column. -/
theorem c10_pto_exactly_nonzero_columns (text : List Char) (cols : Cols7)
    (sd : PyDate) (hcols : searchFirst matchLeaveAt text = some cols)
    (hsd : findStartDate text = some sd) (h6 : (addDays? sd 6).isSome) :
    (extract_timesheet_from_ocr_text text).ptoData =
      some (ptoExpected sd (cols7Vals cols) 0) := by
  have hv := findStartDate_valid hsd
  have hlen : (cols7Vals cols).length = 7 := by simp [cols7Vals]
  obtain ⟨s', hloop⟩ := ptoLoop_eq hv (cols7Vals cols) 0 []
    (fun k hk => addDays?_mono_isSome
      (by rw [hlen] at hk; omega) h6)
    (fun k _ _ => List.not_mem_nil _)
  unfold extract_timesheet_from_ocr_text
  dsimp only
  rw [hcols, hsd]
  dsimp only
  rw [hloop]
  dsimp only
  rcases hws : workStage text (some sd) s' with ⟨dh, wsb⟩
  rcases wsb with ⟨ws, b⟩
  cases b <;> rfl

/-- C10 witness: one non-zero Leave column yields exactly one PTO entry. -/
theorem c10_pto_witness :
    (extract_timesheet_from_ocr_text c10wText).ptoData =
      some [⟨strL "01/02/2024", strL "TUE", 8, strL "PTO"⟩] := by
  rw [c10_pto_exactly_nonzero_columns c10wText
    ⟨strL "0.00", strL "8.00", strL "0.00", strL "0.00", strL "0.00",
      strL "0.00", strL "0.00"⟩ ⟨2024, 1, 1⟩ (by decide) (by decide)
    (by decide)]
  decide

end TS
